import Mathlib

/-!
Shallow embedding of the `abyss` sniffer-core sources
(`ring_buffer.hpp`, `metrics.hpp`, `flow_table.hpp`, `capture.cpp`,
`aggregator.cpp`) and proofs about the frozen claims.

Modelling conventions:
* machine integers (`uint8/16/32/64`) are modelled as `Nat`; the only place the
  code relies on wrap-around arithmetic is the FNV-1a fold over IPv6 addresses
  (`uint32_t` multiplication) and the ring-buffer index masking, which are
  modelled with explicit `% 2^32` / `% capacity`;
* `std::chrono` time points and `double` durations that only ever hold finite
  values are modelled as exact rationals `ℚ`;
* `double` fields of the telemetry frame that the code defensively sanitizes
  are modelled by `EDouble`, a rational extended with NaN and the two
  infinities, so that the sanitization step is meaningful;
* `std::unordered_map<FlowKey, FlowState>` is modelled as an association list;
  iteration order is immaterial to the claims proved here.
-/

namespace Abyss

/-- `PacketHeader` from `metrics.hpp` (lines 10-30). -/
structure PacketHeader where
  timestamp : ℚ
  captured_len : Nat
  wire_len : Nat
  ip_version : Nat
  src_ip : Nat
  dst_ip : Nat
  protocol : Nat
  src_port : Nat
  dst_port : Nat
  tcp_flags : Nat
  is_arp : Bool
  is_dns : Bool
  is_icmp : Bool
  deriving DecidableEq

/-- The all-zero `PacketHeader{}`. -/
def PacketHeader.zero : PacketHeader :=
  { timestamp := 0, captured_len := 0, wire_len := 0, ip_version := 0,
    src_ip := 0, dst_ip := 0, protocol := 0, src_port := 0, dst_port := 0,
    tcp_flags := 0, is_arp := false, is_dns := false, is_icmp := false }

/-- `FlowKey` from `metrics.hpp` (lines 32-44); equality is fieldwise. -/
structure FlowKey where
  src_ip : Nat
  dst_ip : Nat
  src_port : Nat
  dst_port : Nat
  protocol : Nat
  deriving DecidableEq

/-- `FlowState` from `metrics.hpp` (lines 58-71).  The `double` fields
`rtt_estimate_ms` / `jitter_ms` are only ever zero-initialized by the program
(no assignment anywhere in the sources), so they are modelled as `ℚ`. -/
structure FlowState where
  key : FlowKey
  bytes_total : Nat
  packets_total : Nat
  bytes_window : Nat
  packets_window : Nat
  rtt_estimate_ms : ℚ
  jitter_ms : ℚ
  is_https : Bool
  is_heavy : Bool
  direction : Nat
  first_seen : ℚ
  last_seen : ℚ
  deriving DecidableEq

/-- The forward key built in `FlowTable::update` (flow_table.hpp line 23). -/
def pktKey (p : PacketHeader) : FlowKey :=
  ⟨p.src_ip, p.dst_ip, p.src_port, p.dst_port, p.protocol⟩

/-- The reverse key built in `FlowTable::update` (flow_table.hpp line 25). -/
def pktRevKey (p : PacketHeader) : FlowKey :=
  ⟨p.dst_ip, p.src_ip, p.dst_port, p.src_port, p.protocol⟩

/-- Swapping src/dst address and port of a key. -/
def FlowKey.reverse (k : FlowKey) : FlowKey :=
  ⟨k.dst_ip, k.src_ip, k.dst_port, k.src_port, k.protocol⟩

/-- The flow map, modelled as an association list. -/
abbrev FlowTable := List (FlowKey × FlowState)

/-- `flows_.find(key)` on the association-list model. -/
def findFlow : FlowTable → FlowKey → Option FlowState
  | [], _ => none
  | (k, f) :: rest, key => if k = key then some f else findFlow rest key

/-- Mutation of the entry found under `key` (the `auto& flow = it->second`
in-place updates in `FlowTable::update`). -/
def replaceFlow : FlowTable → FlowKey → FlowState → FlowTable
  | [], _, _ => []
  | (k, f) :: rest, key, f' =>
    if k = key then (k, f') :: rest else (k, f) :: replaceFlow rest key f'

/-- The counter bumps of the forward-hit branch
(flow_table.hpp lines 41-47). -/
def bumpFlow (f : FlowState) (p : PacketHeader) : FlowState :=
  { f with
    bytes_total := f.bytes_total + p.wire_len,
    bytes_window := f.bytes_window + p.wire_len,
    packets_total := f.packets_total + 1,
    packets_window := f.packets_window + 1,
    last_seen := p.timestamp }

/-- The reverse-hit branch (flow_table.hpp lines 30-39): same bumps plus
`direction = 2`. -/
def bumpFlowRev (f : FlowState) (p : PacketHeader) : FlowState :=
  { bumpFlow f p with direction := 2 }

/-- The freshly inserted `FlowState` of the insert branch
(flow_table.hpp lines 48-65): zero-initialized, then the listed fields set;
`direction` starts 0 and becomes 1 when `src_port < dst_port`. -/
def newFlowState (p : PacketHeader) : FlowState :=
  { key := pktKey p,
    bytes_total := p.wire_len,
    bytes_window := p.wire_len,
    packets_total := 1,
    packets_window := 1,
    rtt_estimate_ms := 0,
    jitter_ms := 0,
    is_https := (p.src_port == 443 || p.dst_port == 443),
    is_heavy := false,
    direction := if p.src_port < p.dst_port then 1 else 0,
    first_seen := p.timestamp,
    last_seen := p.timestamp }

/-- The early-return filter of `FlowTable::update` (flow_table.hpp
lines 19-21): protocol 0 packets with none of the three flags are ignored. -/
def PassesFilter (p : PacketHeader) : Prop :=
  ¬(p.protocol = 0 ∧ p.is_arp = false ∧ p.is_dns = false ∧ p.is_icmp = false)

instance (p : PacketHeader) : Decidable (PassesFilter p) := by
  unfold PassesFilter; infer_instance

/-- `FlowTable::update` (flow_table.hpp lines 18-67). -/
def FlowTable.update (flows : FlowTable) (p : PacketHeader) : FlowTable :=
  if p.protocol = 0 ∧ p.is_arp = false ∧ p.is_dns = false ∧ p.is_icmp = false then
    flows
  else
    match findFlow flows (pktRevKey p) with
    | some f => replaceFlow flows (pktRevKey p) (bumpFlowRev f p)
    | none =>
      match findFlow flows (pktKey p) with
      | some f => replaceFlow flows (pktKey p) (bumpFlow f p)
      | none => flows ++ [(pktKey p, newFlowState p)]

/-- `FlowTable::expire` (flow_table.hpp lines 69-80): erase entries whose age
exceeds the timeout. -/
def FlowTable.expire (flows : FlowTable) (timeout now : ℚ) : FlowTable :=
  flows.filter (fun e => !(decide (now - e.2.last_seen > timeout)))

/-- `FlowTable::reset_window_counters` (flow_table.hpp lines 177-182). -/
def FlowTable.reset_window_counters (flows : FlowTable) : FlowTable :=
  flows.map (fun e => (e.1, { e.2 with bytes_window := 0, packets_window := 0 }))

/-- `FlowTable::active_count` (flow_table.hpp line 82). -/
def FlowTable.active_count (flows : FlowTable) : Nat := flows.length

/-- `FlowTable::count_https` (flow_table.hpp lines 84-90). -/
def FlowTable.count_https (flows : FlowTable) : Nat :=
  flows.countP (fun e => e.2.is_https)

/-- `FlowTable::count_heavy_streams` (flow_table.hpp lines 92-102). -/
def FlowTable.count_heavy_streams (flows : FlowTable)
    (heavy_throughput_mbps window_seconds : ℚ) : Nat :=
  if window_seconds ≤ 0 then 0
  else
    flows.countP (fun e =>
      decide ((e.2.bytes_window : ℚ) > heavy_throughput_mbps * 1000000 / 8 * window_seconds))

/-- `"%u.%u.%u.%u"` rendering of a 32-bit address
(flow_table.hpp lines 135-139). -/
def ipDotted (s : Nat) : String :=
  toString ((s >>> 24) % 256) ++ "." ++ toString ((s >>> 16) % 256) ++ "." ++
    toString ((s >>> 8) % 256) ++ "." ++ toString (s % 256)

/-- The `"src:dst:dst_port"` key string of a `TopFlowSummary`. -/
def flowKeyText (k : FlowKey) : String :=
  ipDotted k.src_ip ++ ":" ++ ipDotted k.dst_ip ++ ":" ++ toString k.dst_port

/-- `TopFlowSummary` from `metrics.hpp` (lines 93-99). -/
structure TopFlowSummary where
  key : String
  bps : Nat
  rtt : ℚ
  jitter : ℚ
  dir : Nat
  deriving DecidableEq

/-- One rendered summary (flow_table.hpp lines 128-149).  The
`static_cast<uint64_t>` of a non-negative `double` truncates toward zero,
i.e. takes the floor. -/
def mkSummary (f : FlowState) (window_seconds : ℚ) : TopFlowSummary :=
  { key := flowKeyText f.key,
    bps := Int.toNat ⌊(f.bytes_window : ℚ) * 8 / window_seconds⌋,
    rtt := f.rtt_estimate_ms,
    jitter := f.jitter_ms,
    dir := f.direction }

/-- Descending insertion by `bytes_window`; models the effect of
`std::partial_sort` with comparator `a.first > b.first` (ties are in an
arbitrary order, which the spec explicitly allows). -/
def insertDesc (f : FlowState) : List FlowState → List FlowState
  | [] => [f]
  | g :: rest =>
    if g.bytes_window < f.bytes_window then f :: g :: rest
    else g :: insertDesc f rest

/-- Descending sort by `bytes_window`. -/
def sortDesc : List FlowState → List FlowState
  | [] => []
  | f :: rest => insertDesc f (sortDesc rest)

/-- `FlowTable::top_flows` (flow_table.hpp lines 104-153). -/
def FlowTable.top_flows (flows : FlowTable) (n : Nat) (window_seconds : ℚ) :
    List TopFlowSummary :=
  if window_seconds ≤ 0 then []
  else
    let candidates := (flows.filter (fun e => decide (0 < e.2.bytes_window))).map (fun e => e.2)
    let count := min n candidates.length
    ((sortDesc candidates).take count).map (fun f => mkSummary f window_seconds)

/-- `FlowTable::total_bps` (flow_table.hpp lines 155-164). -/
def FlowTable.total_bps (flows : FlowTable) (window_seconds : ℚ) : Nat :=
  if window_seconds ≤ 0 then 0
  else
    Int.toNat ⌊((flows.map (fun e => e.2.bytes_window)).sum : ℚ) * 8 / window_seconds⌋

/-- `FlowTable::total_pps` (flow_table.hpp lines 166-175). -/
def FlowTable.total_pps (flows : FlowTable) (window_seconds : ℚ) : Nat :=
  if window_seconds ≤ 0 then 0
  else
    Int.toNat ⌊((flows.map (fun e => e.2.packets_window)).sum : ℚ) / window_seconds⌋

/-- The three flow-table operations a driving sequence may interleave. -/
inductive FlowOp where
  | upd (p : PacketHeader)
  | expire (now : ℚ)
  | reset
  deriving DecidableEq

/-- One step of the flow-table state machine. -/
def flowStep (timeout : ℚ) (flows : FlowTable) : FlowOp → FlowTable
  | FlowOp.upd p => flows.update p
  | FlowOp.expire now => flows.expire timeout now
  | FlowOp.reset => flows.reset_window_counters

/-- Run a sequence of flow-table operations from a given table. -/
def runFlowOpsFrom (timeout : ℚ) (flows : FlowTable) : List FlowOp → FlowTable
  | [] => flows
  | op :: ops => runFlowOpsFrom timeout (flowStep timeout flows op) ops

/-- Run a sequence of flow-table operations from the empty table. -/
def runFlowOps (timeout : ℚ) (ops : List FlowOp) : FlowTable :=
  runFlowOpsFrom timeout [] ops

/-- The packets of the `upd` operations of a sequence, in order. -/
def updPackets : List FlowOp → List PacketHeader
  | [] => []
  | FlowOp.upd p :: ops => p :: updPackets ops
  | _ :: ops => updPackets ops

/-!  ## Ring buffer (`ring_buffer.hpp`)

`RingBuffer<PacketHeader, 8192>` is the only instantiation
(`Aggregator::PacketRingBuffer`, aggregator.hpp line 14).  `Capacity` is a
power of two and `MASK = Capacity - 1`, so `x & MASK = x % 8192`; `head_` and
`tail_` only ever store masked values, so both stay below the capacity.  The
claims treat the operations sequentially (single producer, single consumer),
so the atomics collapse to plain state. -/

/-- The compile-time capacity of `Aggregator::PacketRingBuffer`. -/
def ringCapacity : Nat := 8192

/-- Sequential state of `RingBuffer<T, 8192>`: the backing array, the two
indices and the drop counter. -/
structure RingBuffer (T : Type) where
  buffer : Nat → T
  head : Nat
  tail : Nat
  drops : Nat

/-- A freshly constructed ring: `head_ = tail_ = 0`, `drops_ = 0`
(ring_buffer.hpp line 15); the `std::array` slots hold default values. -/
def RingBuffer.empty {T : Type} [Inhabited T] : RingBuffer T :=
  { buffer := fun _ => default, head := 0, tail := 0, drops := 0 }

/-- `RingBuffer::push` (ring_buffer.hpp lines 17-29): when the buffer is full
(`next_head == tail`) the oldest slot is overwritten — `tail` advances and
`drops` is incremented — then the item is written at `head` and `head`
advances. -/
def RingBuffer.push {T : Type} (r : RingBuffer T) (item : T) : RingBuffer T :=
  let next_head := (r.head + 1) % ringCapacity
  if next_head = r.tail then
    { buffer := fun i => if i = r.head then item else r.buffer i,
      head := next_head,
      tail := (r.tail + 1) % ringCapacity,
      drops := r.drops + 1 }
  else
    { buffer := fun i => if i = r.head then item else r.buffer i,
      head := next_head,
      tail := r.tail,
      drops := r.drops }

/-- `RingBuffer::pop` (ring_buffer.hpp lines 45-56): empty when
`tail == head`, otherwise return the slot at `tail` and advance `tail`. -/
def RingBuffer.pop {T : Type} (r : RingBuffer T) : Option T × RingBuffer T :=
  if r.tail = r.head then (none, r)
  else (some (r.buffer r.tail), { r with tail := (r.tail + 1) % ringCapacity })

/-- The occupied slot count `(head - tail) & MASK` (size_t subtraction wraps
mod `2^64`, and `2^64` is a multiple of the capacity, so for masked indices
this equals `(head + capacity - tail) % capacity`). -/
def RingBuffer.used {T : Type} (r : RingBuffer T) : Nat :=
  (r.head + ringCapacity - r.tail) % ringCapacity

/-- The queue contents in pop order: the `used` slots starting at `tail`. -/
def RingBuffer.contents {T : Type} (r : RingBuffer T) : List T :=
  (List.range r.used).map (fun i => r.buffer ((r.tail + i) % ringCapacity))

/-- Both indices masked, as maintained by the operations. -/
def RingBuffer.WF {T : Type} (r : RingBuffer T) : Prop :=
  r.head < ringCapacity ∧ r.tail < ringCapacity

/-- Pushing a whole list in order (a burst with no pops). -/
def pushSeq {T : Type} (r : RingBuffer T) : List T → RingBuffer T
  | [] => r
  | x :: xs => pushSeq (r.push x) xs

/-- Popping up to `fuel` items, collecting the successfully popped values. -/
def drainList {T : Type} (r : RingBuffer T) : Nat → List T
  | 0 => []
  | fuel + 1 =>
    match r.pop with
    | (none, _) => []
    | (some x, r') => x :: drainList r' fuel

/-- An interleaved push/pop script for the ring buffer. -/
inductive RingOp (T : Type) where
  | push (x : T)
  | pop

/-- The pushed items of a script, in push order. -/
def pushedItems {T : Type} : List (RingOp T) → List T
  | [] => []
  | RingOp.push x :: ops => x :: pushedItems ops
  | RingOp.pop :: ops => pushedItems ops

/-- Run a script, threading the ring state and collecting every successfully
popped item in pop order. -/
def runRingAux {T : Type} (r : RingBuffer T) (popped : List T) :
    List (RingOp T) → RingBuffer T × List T
  | [] => (r, popped)
  | RingOp.push x :: ops => runRingAux (r.push x) popped ops
  | RingOp.pop :: ops =>
    match r.pop with
    | (none, r') => runRingAux r' popped ops
    | (some x, r') => runRingAux r' (popped ++ [x]) ops

/-- Run a script from the empty ring. -/
def runRing {T : Type} [Inhabited T] (ops : List (RingOp T)) :
    RingBuffer T × List T :=
  runRingAux RingBuffer.empty [] ops

/-!  ## Packet decoder (`capture.cpp`, `CaptureEngine::parse_packet`)

A raw frame is a list of byte values; the pcap contract guarantees `caplen`
readable bytes, so the model takes `caplen` to be the length of the list and
reads with a zero default (never taken thanks to the code's bounds checks).
Link types: `DLT_NULL = 0`, `DLT_EN10MB = 1`, `DLT_LINUX_SLL = 113`. -/

/-- Read one byte of the frame. -/
def byteAt (data : List Nat) (i : Nat) : Nat := data.getD i 0

/-- `ntohs_portable` applied to the 16-bit field at offset `i`: a big-endian
read of two bytes (capture.cpp lines 71-74). -/
def read16 (data : List Nat) (i : Nat) : Nat :=
  byteAt data i * 256 + byteAt data (i + 1)

/-- `ntohl_portable` applied to the 32-bit field at offset `i`: a big-endian
read of four bytes (capture.cpp lines 76-82). -/
def read32 (data : List Nat) (i : Nat) : Nat :=
  byteAt data i * 16777216 + byteAt data (i + 1) * 65536 +
    byteAt data (i + 2) * 256 + byteAt data (i + 3)

/-- The host-endian (little-endian host assumed) 32-bit address family word of
a `DLT_NULL` frame (capture.cpp line 267). -/
def readFamily (data : List Nat) : Nat :=
  byteAt data 0 + byteAt data 1 * 256 + byteAt data 2 * 65536 +
    byteAt data 3 * 16777216

/-- The VLAN-stripping loop (capture.cpp lines 276-287): at most two 802.1Q /
802.1ad tags are skipped; a truncated tag aborts the parse (`none`). -/
def vlanStrip (data : List Nat) (caplen : Nat) :
    Nat → Nat → Nat → Option (Nat × Nat)
  | 0, eth_type, off => some (eth_type, off)
  | fuel + 1, eth_type, off =>
    if eth_type = 0x8100 ∨ eth_type = 0x88A8 then
      if caplen < off + 4 then none
      else vlanStrip data caplen fuel (read16 data (off + 2)) (off + 4)
    else some (eth_type, off)

/-- Link-layer dispatch (capture.cpp lines 249-287) followed by VLAN
stripping; yields the ethertype and payload offset, or `none` for the early
`return ph` paths (truncated frame or unknown link type). -/
def parseLink (data : List Nat) (caplen lt : Nat) : Option (Nat × Nat) :=
  if lt = 1 then
    if caplen < 14 then none
    else vlanStrip data caplen 2 (read16 data 12) 14
  else if lt = 113 then
    if caplen < 16 then none
    else vlanStrip data caplen 2 (read16 data 14) 16
  else if lt = 0 then
    if caplen < 4 then none
    else
      vlanStrip data caplen 2
        (if readFamily data = 2 then 0x0800 else 0x86DD) 4
  else none

/-- The FNV-1a fold over 16 raw address bytes starting at `start`
(capture.cpp lines 344-350); `uint32_t` multiplication wraps mod `2^32`. -/
def fnv16 (data : List Nat) (start : Nat) : Nat :=
  (List.range 16).foldl
    (fun h i => ((h ^^^ byteAt data (start + i)) * 16777619) % 4294967296)
    2166136261

/-- The IPv6 extension-header walk (capture.cpp lines 355-378): up to 8
links; Hop-by-Hop (0), Routing (43), Fragment (44, fixed 8 bytes) and
Destination Options (60) are skipped; the walk stops on a short read, on a
non-extension header, or once the offset passes `caplen`. -/
def walkExt (data : List Nat) (caplen : Nat) :
    Nat → Nat → Nat → Nat × Nat
  | 0, nh, l4 => (nh, l4)
  | fuel + 1, nh, l4 =>
    if nh = 0 ∨ nh = 43 ∨ nh = 44 ∨ nh = 60 then
      if caplen < l4 + 2 then (nh, l4)
      else
        let extNext := byteAt data l4
        let extLen := if nh = 44 then 8 else byteAt data (l4 + 1) * 8 + 8
        let l4' := l4 + extLen
        if l4' > caplen then (extNext, l4')
        else walkExt data caplen fuel extNext l4'
    else (nh, l4)

/-- The IPv4 stage of `parse_packet` (capture.cpp lines 294-337), applied to
the base record `ph0`. -/
def parseIPv4 (data : List Nat) (caplen off : Nat) (ph0 : PacketHeader) :
    PacketHeader :=
  if caplen < off + 20 then ph0
  else
    let verIhl := byteAt data off
    if verIhl >>> 4 ≠ 4 then ph0
    else
      let ihl := verIhl % 16 * 4
      if ihl < 20 ∨ caplen < off + ihl then ph0
      else
        let proto := byteAt data (off + 9)
        let ph1 := { ph0 with
          ip_version := 4,
          src_ip := read32 data (off + 12),
          dst_ip := read32 data (off + 16),
          protocol := proto }
        let l4 := off + ihl
        if proto = 1 then { ph1 with is_icmp := true }
        else
          let ph2 :=
            if proto = 6 ∧ l4 + 20 ≤ caplen then
              let sp := read16 data l4
              let dp := read16 data (l4 + 2)
              { ph1 with
                src_port := sp,
                dst_port := dp,
                tcp_flags := byteAt data (l4 + 13),
                is_dns := (decide (sp = 53 ∨ dp = 53) || ph1.is_dns) }
            else ph1
          if proto = 17 ∧ l4 + 8 ≤ caplen then
            let sp := read16 data l4
            let dp := read16 data (l4 + 2)
            { ph2 with
              src_port := sp,
              dst_port := dp,
              is_dns :=
                (decide (sp = 53 ∨ dp = 53 ∨ sp = 5353 ∨ dp = 5353) || ph2.is_dns) }
          else ph2

/-- The IPv6 stage of `parse_packet` (capture.cpp lines 339-399), applied to
the base record `ph0`.  Note the trailing DNS check tests only port 53. -/
def parseIPv6 (data : List Nat) (caplen off : Nat) (ph0 : PacketHeader) :
    PacketHeader :=
  if caplen < off + 40 then ph0
  else
    let ph1 := { ph0 with
      ip_version := 6,
      src_ip := fnv16 data (off + 8),
      dst_ip := fnv16 data (off + 24) }
    let nhl4 := walkExt data caplen 8 (byteAt data (off + 6)) (off + 40)
    let nh := nhl4.1
    let l4 := nhl4.2
    let ph2 := { ph1 with protocol := nh }
    let ph3 :=
      if nh = 6 ∧ l4 + 20 ≤ caplen then
        { ph2 with
          src_port := read16 data l4,
          dst_port := read16 data (l4 + 2),
          tcp_flags := byteAt data (l4 + 13) }
      else ph2
    let ph4 :=
      if nh = 17 ∧ l4 + 8 ≤ caplen then
        { ph3 with
          src_port := read16 data l4,
          dst_port := read16 data (l4 + 2) }
      else ph3
    let ph5 := if nh = 58 then { ph4 with is_icmp := true } else ph4
    if ph5.src_port = 53 ∨ ph5.dst_port = 53 then { ph5 with is_dns := true }
    else ph5

/-- `CaptureEngine::parse_packet` (capture.cpp lines 241-402). -/
def parsePacket (data : List Nat) (wirelen lt : Nat) (now : ℚ) :
    PacketHeader :=
  let caplen := data.length
  let ph0 := { PacketHeader.zero with
    timestamp := now, captured_len := caplen, wire_len := wirelen }
  match parseLink data caplen lt with
  | none => ph0
  | some (ethType, off) =>
    if ethType = 0x0806 then { ph0 with is_arp := true }
    else if ethType = 0x0800 then parseIPv4 data caplen off ph0
    else if ethType = 0x86DD then parseIPv6 data caplen off ph0
    else ph0

/-!  ## Aggregator (`aggregator.cpp`, `Aggregator::build_frame`)

The `double` fields of the telemetry frame that flow through the final
`sanitize` lambda are modelled by `EDouble`: an exact rational extended with
NaN and the two infinities (rounding is idealized away; special values follow
IEEE-754).  Fields the program only ever assigns finite values
(`FlowState::rtt_estimate_ms` / `jitter_ms`, never written after
zero-initialization; `health_queue_fill_`, only ever assigned from
`RingBuffer::fill_ratio`, a quotient of finite floats) are plain `ℚ`. -/

/-- A `double` value: finite (exact rational), NaN, or an infinity. -/
inductive EDouble where
  | nan
  | posInf
  | negInf
  | fin (q : ℚ)
  deriving DecidableEq

/-- IEEE multiplication of a `double` by a finite constant `c`
(`0 * ±inf = NaN`, sign rules otherwise). -/
def EDouble.scale (c : ℚ) : EDouble → EDouble
  | EDouble.nan => EDouble.nan
  | EDouble.posInf =>
    if 0 < c then EDouble.posInf else if c < 0 then EDouble.negInf else EDouble.nan
  | EDouble.negInf =>
    if 0 < c then EDouble.negInf else if c < 0 then EDouble.posInf else EDouble.nan
  | EDouble.fin q => EDouble.fin (c * q)

/-- IEEE addition of a finite constant `c` to a `double`. -/
def EDouble.addFin (c : ℚ) : EDouble → EDouble
  | EDouble.nan => EDouble.nan
  | EDouble.posInf => EDouble.posInf
  | EDouble.negInf => EDouble.negInf
  | EDouble.fin q => EDouble.fin (c + q)

/-- The EWMA update `α·avg + (1−α)·ewma` (aggregator.cpp lines 139-140),
with finite `α` and `avg`. -/
def ewmaStep (alpha avg : ℚ) (e : EDouble) : EDouble :=
  (e.scale (1 - alpha)).addFin (alpha * avg)

/-- The `sanitize` lambda (aggregator.cpp lines 177-179): NaN and infinities
are replaced by zero. -/
def sanitizeD : EDouble → EDouble
  | EDouble.nan => EDouble.fin 0
  | EDouble.posInf => EDouble.fin 0
  | EDouble.negInf => EDouble.fin 0
  | EDouble.fin q => EDouble.fin q

/-- A `double` holding an ordinary finite value. -/
def EDouble.IsFinite : EDouble → Prop
  | EDouble.fin _ => True
  | _ => False

/-- `NetMetrics` from `metrics.hpp` (lines 84-91). -/
structure NetMetrics where
  bps : Nat
  pps : Nat
  active_flows : Nat
  latency_ms : EDouble
  packet_loss : EDouble
  error_rate : EDouble

/-- `ProtoCounters` from `metrics.hpp` (lines 73-82). -/
structure ProtoCounters where
  arp : Nat
  dns : Nat
  udp_small : Nat
  https_flows : Nat
  heavy_streams : Nat
  rst : Nat
  icmp_unreach : Nat
  firewall_blocks : Nat

/-- `SnifferHealth` from `metrics.hpp` (lines 101-105). -/
structure SnifferHealth where
  capture_drop : Nat
  queue_fill : ℚ
  sniffer_fps : ℚ

/-- `TelemetryFrame` from `metrics.hpp` (lines 107-115); the fixed
8-element array is modelled by the list of its `top_flow_count` populated
entries. -/
structure TelemetryFrame where
  schema_version : Nat
  timestamp : EDouble
  net : NetMetrics
  proto : ProtoCounters
  top_flows : List TopFlowSummary
  top_flow_count : Nat
  health : SnifferHealth

/-- The aggregator state read by `build_frame`: configuration, window
counters, flow table, EWMA accumulator and supervisor health samples
(aggregator.hpp lines 32-52). -/
structure AggState where
  ewma_alpha : ℚ
  heavy_throughput_mbps : ℚ
  flows : FlowTable
  window_arp : Nat
  window_dns : Nat
  window_udp_small : Nat
  window_rst : Nat
  window_icmp_unreach : Nat
  window_total_pkts : Nat
  ewma_latency_ms : EDouble
  health_capture_drops : Nat
  health_queue_fill : ℚ

/-- `Aggregator::build_frame` (aggregator.cpp lines 124-186).
`timestampRaw` is the `double` duration `now - start_time_`; the result pairs
the emitted frame with the updated `ewma_latency_ms_` accumulator. -/
def build_frame (st : AggState) (window_seconds : ℚ) (timestampRaw : EDouble) :
    TelemetryFrame × EDouble :=
  let ewma' :=
    if 1 < st.window_total_pkts ∧ 0 < window_seconds then
      let avg := min (window_seconds * 1000 / st.window_total_pkts) 500
      ewmaStep st.ewma_alpha avg st.ewma_latency_ms
    else st.ewma_latency_ms
  let loss : EDouble :=
    if 0 < st.window_total_pkts then
      EDouble.fin (min ((st.window_rst : ℚ) / st.window_total_pkts) 1)
    else EDouble.fin 0
  let err : EDouble :=
    if 0 < st.window_total_pkts then
      EDouble.fin
        (min (((st.window_rst + st.window_icmp_unreach : Nat) : ℚ) / st.window_total_pkts) 1)
    else EDouble.fin 0
  let top := st.flows.top_flows 8 window_seconds
  let frame : TelemetryFrame :=
    { schema_version := 1,
      timestamp := sanitizeD timestampRaw,
      net :=
        { bps := st.flows.total_bps window_seconds,
          pps := st.flows.total_pps window_seconds,
          active_flows := st.flows.active_count,
          latency_ms := sanitizeD ewma',
          packet_loss := sanitizeD loss,
          error_rate := sanitizeD err },
      proto :=
        { arp := st.window_arp,
          dns := st.window_dns,
          udp_small := st.window_udp_small,
          https_flows := st.flows.count_https,
          heavy_streams :=
            st.flows.count_heavy_streams st.heavy_throughput_mbps window_seconds,
          rst := st.window_rst,
          icmp_unreach := st.window_icmp_unreach,
          firewall_blocks := 0 },
      top_flows := top,
      top_flow_count := top.length,
      health :=
        { capture_drop := st.health_capture_drops,
          queue_fill := st.health_queue_fill,
          sniffer_fps := if 0 < window_seconds then 1 / window_seconds else 60 } }
  (frame, ewma')

/-!  ## Concrete inputs used by witnesses and counterexamples -/

/-- "At most one flow entry exists per unordered 5-tuple pair": no two
present keys are each other's reverses (unless they coincide). -/
def PairInv (t : FlowTable) : Prop :=
  ∀ k1 k2 : FlowKey, (findFlow t k1).isSome → (findFlow t k2).isSome →
    k2 = k1.reverse → k1 = k2

/-- A client-to-HTTPS TCP packet. -/
def tcpPkt : PacketHeader :=
  { PacketHeader.zero with
    wire_len := 1500, ip_version := 4, src_ip := 1, dst_ip := 2,
    protocol := 6, src_port := 50000, dst_port := 443 }

/-- The HTTPS reply packet of `tcpPkt` (5-tuple reversed). -/
def tcpPktRev : PacketHeader :=
  { PacketHeader.zero with
    wire_len := 60, ip_version := 4, src_ip := 2, dst_ip := 1,
    protocol := 6, src_port := 443, dst_port := 50000 }

/-- An ARP frame's header: protocol 0 but `is_arp` set, so it passes the
flow-table filter and creates a protocol-0 entry. -/
def arpSeedPkt : PacketHeader :=
  { PacketHeader.zero with wire_len := 60, src_ip := 1, dst_ip := 2, is_arp := true }

/-- A protocol-0 packet with no flags whose reverse key is `arpSeedPkt`'s
forward key; the filter at the top of `FlowTable::update` discards it. -/
def filteredRevPkt : PacketHeader :=
  { PacketHeader.zero with wire_len := 40, src_ip := 2, dst_ip := 1 }

/-- A packet equal to its own reverse (same address and port on both sides)
that the filter discards (protocol 0, no flags). -/
def selfFilteredPkt : PacketHeader :=
  { PacketHeader.zero with
    wire_len := 40, src_ip := 7, dst_ip := 7, src_port := 9, dst_port := 9 }

/-- A self-reverse TCP packet (same address and port on both sides). -/
def selfTcpPkt : PacketHeader :=
  { PacketHeader.zero with
    wire_len := 80, ip_version := 4, src_ip := 5, dst_ip := 5,
    protocol := 6, src_port := 7, dst_port := 7 }

/-- An Ethernet IPv6/UDP frame with source port 5353 (mDNS):
14-byte Ethernet header (ethertype `0x86DD`), 40-byte IPv6 header with
next-header 17, 8-byte UDP header with ports 5353 → 0. -/
def mdnsV6Frame : List Nat :=
  [0, 0, 0, 0, 0, 0, 0, 0, 0, 0, 0, 0, 0x86, 0xDD,
   0x60, 0, 0, 0, 0, 8, 17, 64,
   0, 0, 0, 0, 0, 0, 0, 0, 0, 0, 0, 0, 0, 0, 0, 1,
   0, 0, 0, 0, 0, 0, 0, 0, 0, 0, 0, 0, 0, 0, 0, 2,
   0x14, 0xE9, 0, 0, 0, 8, 0, 0]

/-- An Ethernet IPv6/UDP frame with destination port 53 (DNS over IPv6). -/
def dnsV6Frame : List Nat :=
  [0, 0, 0, 0, 0, 0, 0, 0, 0, 0, 0, 0, 0x86, 0xDD,
   0x60, 0, 0, 0, 0, 8, 17, 64,
   0, 0, 0, 0, 0, 0, 0, 0, 0, 0, 0, 0, 0, 0, 0, 1,
   0, 0, 0, 0, 0, 0, 0, 0, 0, 0, 0, 0, 0, 0, 0, 2,
   0xC0, 0, 0, 53, 0, 8, 0, 0]

/-- An Ethernet IPv4/UDP frame with destination port 53 (DNS):
14-byte Ethernet header (ethertype `0x0800`), 20-byte IPv4 header
(`ver_ihl = 0x45`, protocol 17), 8-byte UDP header with ports 49152 → 53. -/
def dnsV4Frame : List Nat :=
  [0, 0, 0, 0, 0, 0, 0, 0, 0, 0, 0, 0, 0x08, 0x00,
   0x45, 0, 0, 28, 0, 0, 0, 0, 64, 17, 0, 0, 10, 0, 0, 1, 10, 0, 0, 2,
   0xC0, 0, 0, 53, 0, 8, 0, 0]

/-!  ## History-instrumented flow table

For the accounting claim the flow table is also run in an instrumented form:
each entry additionally carries the list of packets that have been charged to
it — the packet that created it followed by every packet that bumped it —
since its creation.  The instrumented operations mirror `FlowTable::update`,
`FlowTable::expire` and `FlowTable::reset_window_counters` branch for
branch, and erasing the histories recovers the plain model (proved below),
so the history of an entry is exactly the set of processed packets that
mapped to it since its creation. -/

/-- A flow table whose entries also carry their charged-packet history. -/
abbrev FlowTableH := List (FlowKey × FlowState × List PacketHeader)

/-- Forget the histories. -/
def eraseH (t : FlowTableH) : FlowTable := t.map (fun e => (e.1, e.2.1))

/-- `flows_.find(key)` on the instrumented table. -/
def findFlowH : FlowTableH → FlowKey → Option (FlowState × List PacketHeader)
  | [], _ => none
  | (k, fp) :: rest, key => if k = key then some fp else findFlowH rest key

/-- In-place mutation of the entry found under `key`, history included. -/
def replaceFlowH :
    FlowTableH → FlowKey → FlowState × List PacketHeader → FlowTableH
  | [], _, _ => []
  | (k, fp) :: rest, key, fp' =>
    if k = key then (k, fp') :: rest else (k, fp) :: replaceFlowH rest key fp'

/-- `FlowTable::update` with history: the packet is appended to the history
of the entry it bumps, or starts the history of the entry it creates;
filter-discarded packets are charged to nothing. -/
def FlowTableH.updateH (flows : FlowTableH) (p : PacketHeader) : FlowTableH :=
  if p.protocol = 0 ∧ p.is_arp = false ∧ p.is_dns = false ∧ p.is_icmp = false then
    flows
  else
    match findFlowH flows (pktRevKey p) with
    | some fp => replaceFlowH flows (pktRevKey p) (bumpFlowRev fp.1 p, fp.2 ++ [p])
    | none =>
      match findFlowH flows (pktKey p) with
      | some fp => replaceFlowH flows (pktKey p) (bumpFlow fp.1 p, fp.2 ++ [p])
      | none => flows ++ [(pktKey p, newFlowState p, [p])]

/-- `FlowTable::expire` with history. -/
def FlowTableH.expireH (flows : FlowTableH) (timeout now : ℚ) : FlowTableH :=
  flows.filter (fun e => !(decide (now - e.2.1.last_seen > timeout)))

/-- `FlowTable::reset_window_counters` with history. -/
def FlowTableH.resetH (flows : FlowTableH) : FlowTableH :=
  flows.map (fun e =>
    (e.1, { e.2.1 with bytes_window := 0, packets_window := 0 }, e.2.2))

/-- One instrumented flow-table step. -/
def flowStepH (timeout : ℚ) (flows : FlowTableH) : FlowOp → FlowTableH
  | FlowOp.upd p => flows.updateH p
  | FlowOp.expire now => flows.expireH timeout now
  | FlowOp.reset => flows.resetH

/-- Run a sequence of instrumented operations from a given table. -/
def runFlowOpsFromH (timeout : ℚ) (flows : FlowTableH) :
    List FlowOp → FlowTableH
  | [] => flows
  | op :: ops => runFlowOpsFromH timeout (flowStepH timeout flows op) ops

/-- Run a sequence of instrumented operations from the empty table. -/
def runFlowOpsH (timeout : ℚ) (ops : List FlowOp) : FlowTableH :=
  runFlowOpsFromH timeout [] ops


/-!  ## Association-list lemmas for the flow table -/

theorem findFlow_replaceFlow_self (t : FlowTable) (k : FlowKey) (f f' : FlowState)
    (h : findFlow t k = some f) :
    findFlow (replaceFlow t k f') k = some f' := by
  induction t with
  | nil => simp [findFlow] at h
  | cons e rest ih =>
    obtain ⟨k0, f0⟩ := e
    by_cases hk : k0 = k
    · subst hk
      simp [findFlow, replaceFlow]
    · simp only [findFlow, replaceFlow, if_neg hk] at h ⊢
      exact ih h

theorem findFlow_replaceFlow_ne (t : FlowTable) (k k' : FlowKey) (f' : FlowState)
    (h : k' ≠ k) :
    findFlow (replaceFlow t k f') k' = findFlow t k' := by
  induction t with
  | nil => simp [replaceFlow]
  | cons e rest ih =>
    obtain ⟨k0, f0⟩ := e
    by_cases hk : k0 = k
    · subst hk
      have hk0 : ¬k0 = k' := fun hc => h (hc ▸ rfl)
      simp [findFlow, replaceFlow, hk0]
    · by_cases hk' : k0 = k'
      · simp [findFlow, replaceFlow, hk, hk', h]
      · simp only [findFlow, replaceFlow, if_neg hk, if_neg hk']
        exact ih

theorem replaceFlow_length (t : FlowTable) (k : FlowKey) (f' : FlowState) :
    (replaceFlow t k f').length = t.length := by
  induction t with
  | nil => rfl
  | cons e rest ih =>
    obtain ⟨k0, f0⟩ := e
    by_cases hk : k0 = k
    · simp [replaceFlow, hk]
    · simp [replaceFlow, hk, ih]

theorem replaceFlow_of_none (t : FlowTable) (k : FlowKey) (f' : FlowState)
    (h : findFlow t k = none) :
    replaceFlow t k f' = t := by
  induction t with
  | nil => rfl
  | cons e rest ih =>
    obtain ⟨k0, f0⟩ := e
    by_cases hk : k0 = k
    · simp [findFlow, hk] at h
    · simp only [findFlow, if_neg hk] at h
      simp [replaceFlow, hk, ih h]

theorem findFlow_replaceFlow_isSome (t : FlowTable) (k k' : FlowKey) (f' : FlowState) :
    (findFlow (replaceFlow t k f') k').isSome = (findFlow t k').isSome := by
  by_cases hk : k' = k
  · subst hk
    cases hf : findFlow t k' with
    | none => rw [replaceFlow_of_none t k' f' hf, hf]
    | some f => simp [findFlow_replaceFlow_self t k' f f' hf, hf]
  · rw [findFlow_replaceFlow_ne t k k' f' hk]

theorem findFlow_some_mem (t : FlowTable) (k : FlowKey) (f : FlowState)
    (h : findFlow t k = some f) :
    (k, f) ∈ t := by
  induction t with
  | nil => simp [findFlow] at h
  | cons e rest ih =>
    obtain ⟨k0, f0⟩ := e
    by_cases hk : k0 = k
    · subst hk
      simp [findFlow] at h
      simp [h]
    · simp only [findFlow, if_neg hk] at h
      exact List.mem_cons_of_mem _ (ih h)

theorem mem_replaceFlow (t : FlowTable) (k : FlowKey) (f' : FlowState)
    (e : FlowKey × FlowState) (h : e ∈ replaceFlow t k f') :
    e ∈ t ∨ e = (k, f') := by
  induction t with
  | nil => simp [replaceFlow] at h
  | cons e0 rest ih =>
    obtain ⟨k0, f0⟩ := e0
    by_cases hk : k0 = k
    · subst hk
      simp only [replaceFlow, if_pos rfl] at h
      rcases List.mem_cons.mp h with h1 | h2
      · exact Or.inr h1
      · exact Or.inl (List.mem_cons_of_mem _ h2)
    · simp only [replaceFlow, if_neg hk] at h
      rcases List.mem_cons.mp h with h1 | h2
      · exact Or.inl (h1 ▸ List.mem_cons_self _ _)
      · rcases ih h2 with h3 | h3
        · exact Or.inl (List.mem_cons_of_mem _ h3)
        · exact Or.inr h3

theorem findFlow_append_of_some (t l : FlowTable) (k : FlowKey) (f : FlowState)
    (h : findFlow t k = some f) :
    findFlow (t ++ l) k = some f := by
  induction t with
  | nil => simp [findFlow] at h
  | cons e rest ih =>
    obtain ⟨k0, f0⟩ := e
    by_cases hk : k0 = k
    · subst hk
      simp [findFlow] at h ⊢
      exact h
    · simp only [findFlow, List.cons_append, if_neg hk] at h ⊢
      exact ih h

theorem findFlow_append_of_none (t l : FlowTable) (k : FlowKey)
    (h : findFlow t k = none) :
    findFlow (t ++ l) k = findFlow l k := by
  induction t with
  | nil => simp
  | cons e rest ih =>
    obtain ⟨k0, f0⟩ := e
    by_cases hk : k0 = k
    · simp [findFlow, hk] at h
    · simp only [findFlow, if_neg hk] at h
      simp only [List.cons_append, findFlow, if_neg hk]
      exact ih h

theorem findFlow_filter_isSome (t : FlowTable) (q : FlowKey × FlowState → Bool)
    (k : FlowKey) (h : (findFlow (t.filter q) k).isSome) :
    (findFlow t k).isSome := by
  induction t with
  | nil => simp [findFlow] at h
  | cons e rest ih =>
    obtain ⟨k0, f0⟩ := e
    by_cases hk : k0 = k
    · simp [findFlow, hk]
    · cases hq : q (k0, f0) with
      | true =>
        rw [List.filter_cons_of_pos hq] at h
        simp only [findFlow, if_neg hk] at h ⊢
        exact ih h
      | false =>
        rw [List.filter_cons_of_neg (by simp [hq])] at h
        simp only [findFlow, if_neg hk]
        exact ih h

theorem findFlow_reset_isSome (t : FlowTable) (k : FlowKey) :
    (findFlow (FlowTable.reset_window_counters t) k).isSome = (findFlow t k).isSome := by
  induction t with
  | nil => rfl
  | cons e rest ih =>
    obtain ⟨k0, f0⟩ := e
    by_cases hk : k0 = k
    · simp [FlowTable.reset_window_counters, findFlow, hk]
    · simp only [FlowTable.reset_window_counters, List.map_cons, findFlow, if_neg hk] at ih ⊢
      exact ih

/-!  ## Claim C9: zero-window guards -/

/-- C9: whenever `window_seconds ≤ 0`, `top_flows` returns the empty list and
`total_bps` / `total_pps` return 0, so the divisions by `window_seconds` in
these queries are only reached under `window_seconds > 0`. -/
theorem window_guard_zero (t : FlowTable) (n : Nat) (w : ℚ) (hw : w ≤ 0) :
    t.top_flows n w = [] ∧ t.total_bps w = 0 ∧ t.total_pps w = 0 := by
  refine ⟨?_, ?_, ?_⟩ <;>
    simp [FlowTable.top_flows, FlowTable.total_bps, FlowTable.total_pps, hw]

/-- Witness for C9 at `window_seconds = 0` on a nonempty table. -/
theorem window_guard_zero_witness :
    (0 : ℚ) ≤ 0 ∧
      FlowTable.top_flows [(pktKey tcpPkt, newFlowState tcpPkt)] 8 0 = [] ∧
      FlowTable.total_bps [(pktKey tcpPkt, newFlowState tcpPkt)] 0 = 0 ∧
      FlowTable.total_pps [(pktKey tcpPkt, newFlowState tcpPkt)] 0 = 0 :=
  ⟨le_refl 0, window_guard_zero [(pktKey tcpPkt, newFlowState tcpPkt)] 8 0 (le_refl 0)⟩

/-!  ## Claim C7: the insert branch -/

/-- C7: when the filter passes and both the forward and the reverse key are
absent, `update` appends a fresh entry under the forward key whose
`direction` is 1 iff `src_port < dst_port` (0 otherwise) and whose
`is_https` is set iff either port is 443. -/
theorem update_insert_branch (t : FlowTable) (p : PacketHeader)
    (hf : PassesFilter p)
    (hrev : findFlow t (pktRevKey p) = none)
    (hfwd : findFlow t (pktKey p) = none) :
    t.update p = t ++ [(pktKey p, newFlowState p)] ∧
      ((newFlowState p).direction = 1 ↔ p.src_port < p.dst_port) ∧
      ((newFlowState p).direction = 0 ↔ ¬p.src_port < p.dst_port) ∧
      ((newFlowState p).is_https = true ↔ (p.src_port = 443 ∨ p.dst_port = 443)) := by
  refine ⟨?_, ?_, ?_, ?_⟩
  · simp only [FlowTable.update, hrev, hfwd]
    rw [if_neg hf]
  · by_cases h : p.src_port < p.dst_port <;> simp [newFlowState, h]
  · by_cases h : p.src_port < p.dst_port <;> simp [newFlowState, h]
  · simp [newFlowState]

/-- Witness for C7: inserting the HTTPS packet `tcpPkt` into the empty
table. -/
theorem update_insert_branch_witness :
    FlowTable.update [] tcpPkt = [(pktKey tcpPkt, newFlowState tcpPkt)] ∧
      ((newFlowState tcpPkt).direction = 1 ↔ tcpPkt.src_port < tcpPkt.dst_port) ∧
      ((newFlowState tcpPkt).direction = 0 ↔ ¬tcpPkt.src_port < tcpPkt.dst_port) ∧
      ((newFlowState tcpPkt).is_https = true ↔
        (tcpPkt.src_port = 443 ∨ tcpPkt.dst_port = 443)) :=
  update_insert_branch [] tcpPkt (by decide) rfl rfl

/-!  ## Claim C6: window counters never exceed totals -/

theorem window_le_total_step (timeout : ℚ) (t : FlowTable) (op : FlowOp)
    (h : ∀ e ∈ t, e.2.packets_window ≤ e.2.packets_total ∧
      e.2.bytes_window ≤ e.2.bytes_total) :
    ∀ e ∈ flowStep timeout t op,
      e.2.packets_window ≤ e.2.packets_total ∧ e.2.bytes_window ≤ e.2.bytes_total := by
  cases op with
  | upd p =>
    intro e he
    simp only [flowStep, FlowTable.update] at he
    by_cases hc : p.protocol = 0 ∧ p.is_arp = false ∧ p.is_dns = false ∧ p.is_icmp = false
    · rw [if_pos hc] at he
      exact h e he
    · rw [if_neg hc] at he
      cases hrev : findFlow t (pktRevKey p) with
      | some f =>
        rw [hrev] at he
        rcases mem_replaceFlow _ _ _ _ he with hold | hnew
        · exact h e hold
        · have hmem := findFlow_some_mem _ _ _ hrev
          obtain ⟨h1, h2⟩ : f.packets_window ≤ f.packets_total ∧
              f.bytes_window ≤ f.bytes_total := h _ hmem
          subst hnew
          simp [bumpFlowRev, bumpFlow]
          omega
      | none =>
        rw [hrev] at he
        cases hfwd : findFlow t (pktKey p) with
        | some f =>
          rw [hfwd] at he
          rcases mem_replaceFlow _ _ _ _ he with hold | hnew
          · exact h e hold
          · have hmem := findFlow_some_mem _ _ _ hfwd
            obtain ⟨h1, h2⟩ : f.packets_window ≤ f.packets_total ∧
                f.bytes_window ≤ f.bytes_total := h _ hmem
            subst hnew
            simp [bumpFlow]
            omega
        | none =>
          rw [hfwd] at he
          rcases List.mem_append.mp he with hold | hnew
          · exact h e hold
          · simp only [List.mem_singleton] at hnew
            subst hnew
            simp [newFlowState]
  | expire now =>
    intro e he
    exact h e (List.mem_of_mem_filter he)
  | reset =>
    intro e he
    simp only [flowStep, FlowTable.reset_window_counters] at he
    rcases List.mem_map.mp he with ⟨e0, _, heq⟩
    subst heq
    simp

theorem window_le_total_run (timeout : ℚ) (ops : List FlowOp) :
    ∀ t : FlowTable,
      (∀ e ∈ t, e.2.packets_window ≤ e.2.packets_total ∧
        e.2.bytes_window ≤ e.2.bytes_total) →
      ∀ e ∈ runFlowOpsFrom timeout t ops,
        e.2.packets_window ≤ e.2.packets_total ∧
          e.2.bytes_window ≤ e.2.bytes_total := by
  induction ops with
  | nil => intro t h; exact h
  | cons op ops ih =>
    intro t h
    exact ih (flowStep timeout t op) (window_le_total_step timeout t op h)

/-- C6: after any finite sequence of `update` / `expire` /
`reset_window_counters` operations from the empty table, every flow entry
satisfies `packets_total ≥ packets_window` and `bytes_total ≥ bytes_window`. -/
theorem flow_window_le_total (timeout : ℚ) (ops : List FlowOp)
    (k : FlowKey) (f : FlowState) (hmem : (k, f) ∈ runFlowOps timeout ops) :
    f.packets_window ≤ f.packets_total ∧ f.bytes_window ≤ f.bytes_total :=
  window_le_total_run timeout ops [] (by intro e he; simp at he) (k, f) hmem

/-- Witness for C6 on the one-entry table built by a single update. -/
theorem flow_window_le_total_witness :
    (pktKey tcpPkt, newFlowState tcpPkt) ∈ runFlowOps 30 [FlowOp.upd tcpPkt] ∧
      ((newFlowState tcpPkt).packets_window ≤ (newFlowState tcpPkt).packets_total ∧
        (newFlowState tcpPkt).bytes_window ≤ (newFlowState tcpPkt).bytes_total) :=
  ⟨by decide,
    flow_window_le_total 30 [FlowOp.upd tcpPkt] (pktKey tcpPkt) (newFlowState tcpPkt)
      (by decide)⟩

/-!  ## Claim C1: the reverse-key branch and the unordered-pair invariant -/

theorem reverse_reverse (k : FlowKey) : k.reverse.reverse = k := rfl

theorem reverse_pktKey (p : PacketHeader) : (pktKey p).reverse = pktRevKey p := rfl

theorem pairInv_nil : PairInv [] := by
  intro k1 k2 h1
  simp [findFlow] at h1

theorem pairInv_step (timeout : ℚ) (t : FlowTable) (op : FlowOp)
    (h : PairInv t) : PairInv (flowStep timeout t op) := by
  cases op with
  | upd p =>
    by_cases hc : p.protocol = 0 ∧ p.is_arp = false ∧ p.is_dns = false ∧ p.is_icmp = false
    · have hst : flowStep timeout t (FlowOp.upd p) = t := by
        simp only [flowStep, FlowTable.update]
        rw [if_pos hc]
      rw [hst]; exact h
    · cases hrev : findFlow t (pktRevKey p) with
      | some f =>
        have hst : flowStep timeout t (FlowOp.upd p)
            = replaceFlow t (pktRevKey p) (bumpFlowRev f p) := by
          simp only [flowStep, FlowTable.update, hrev]
          rw [if_neg hc]
        rw [hst]
        intro k1 k2 h1 h2 heq
        rw [findFlow_replaceFlow_isSome] at h1 h2
        exact h k1 k2 h1 h2 heq
      | none =>
        cases hfwd : findFlow t (pktKey p) with
        | some f =>
          have hst : flowStep timeout t (FlowOp.upd p)
              = replaceFlow t (pktKey p) (bumpFlow f p) := by
            simp only [flowStep, FlowTable.update, hrev, hfwd]
            rw [if_neg hc]
          rw [hst]
          intro k1 k2 h1 h2 heq
          rw [findFlow_replaceFlow_isSome] at h1 h2
          exact h k1 k2 h1 h2 heq
        | none =>
          have hst : flowStep timeout t (FlowOp.upd p)
              = t ++ [(pktKey p, newFlowState p)] := by
            simp only [flowStep, FlowTable.update, hrev, hfwd]
            rw [if_neg hc]
          rw [hst]
          intro k1 k2 h1 h2 heq
          have key1 : (findFlow t k1).isSome ∨ k1 = pktKey p := by
            cases hk : findFlow t k1 with
            | some g => exact Or.inl rfl
            | none =>
              rw [findFlow_append_of_none t _ _ hk] at h1
              simp only [findFlow] at h1
              by_cases hkk : pktKey p = k1
              · exact Or.inr hkk.symm
              · rw [if_neg hkk] at h1
                simp at h1
          have key2 : (findFlow t k2).isSome ∨ k2 = pktKey p := by
            cases hk : findFlow t k2 with
            | some g => exact Or.inl rfl
            | none =>
              rw [findFlow_append_of_none t _ _ hk] at h2
              simp only [findFlow] at h2
              by_cases hkk : pktKey p = k2
              · exact Or.inr hkk.symm
              · rw [if_neg hkk] at h2
                simp at h2
          rcases key1 with hk1 | hk1 <;> rcases key2 with hk2 | hk2
          · exact h k1 k2 hk1 hk2 heq
          · exfalso
            have hr : k1.reverse = pktKey p := by rw [← heq, hk2]
            have hk1r : k1 = pktRevKey p := by
              rw [← reverse_reverse k1, hr, reverse_pktKey]
            rw [hk1r, hrev] at hk1
            simp at hk1
          · exfalso
            have hk2r : k2 = pktRevKey p := by rw [heq, hk1, reverse_pktKey]
            rw [hk2r, hrev] at hk2
            simp at hk2
          · rw [hk1, hk2]
  | expire now =>
    intro k1 k2 h1 h2 heq
    exact h k1 k2 (findFlow_filter_isSome _ _ _ h1) (findFlow_filter_isSome _ _ _ h2) heq
  | reset =>
    intro k1 k2 h1 h2 heq
    simp only [flowStep] at h1 h2
    rw [findFlow_reset_isSome] at h1 h2
    exact h k1 k2 h1 h2 heq

theorem pairInv_run (timeout : ℚ) (ops : List FlowOp) :
    ∀ t : FlowTable, PairInv t → PairInv (runFlowOpsFrom timeout t ops) := by
  induction ops with
  | nil => intro t h; exact h
  | cons op ops ih =>
    intro t h
    exact ih (flowStep timeout t op) (pairInv_step timeout t op h)

/-- C1 (amended): for every reachable table and every packet `p` that passes
`update`'s protocol/flag filter and whose reverse key is present, `update p`
bumps that entry's totals, window counters and `last_seen` and sets its
`direction` to 2 (see `bumpFlowRev`), leaves every other key unchanged and
inserts nothing; moreover every reachable table holds at most one entry per
unordered 5-tuple pair. -/
theorem update_reverse_hit (timeout : ℚ) (ops : List FlowOp)
    (p : PacketHeader) (f : FlowState)
    (hf : PassesFilter p)
    (hrev : findFlow (runFlowOps timeout ops) (pktRevKey p) = some f) :
    findFlow (FlowTable.update (runFlowOps timeout ops) p) (pktRevKey p)
        = some (bumpFlowRev f p) ∧
      (bumpFlowRev f p).direction = 2 ∧
      (∀ k, k ≠ pktRevKey p →
        findFlow (FlowTable.update (runFlowOps timeout ops) p) k
          = findFlow (runFlowOps timeout ops) k) ∧
      (FlowTable.update (runFlowOps timeout ops) p).length
        = (runFlowOps timeout ops).length ∧
      PairInv (runFlowOps timeout ops) := by
  have hupd : FlowTable.update (runFlowOps timeout ops) p
      = replaceFlow (runFlowOps timeout ops) (pktRevKey p) (bumpFlowRev f p) := by
    simp only [FlowTable.update, hrev]
    rw [if_neg hf]
  refine ⟨?_, rfl, ?_, ?_, ?_⟩
  · rw [hupd]
    exact findFlow_replaceFlow_self _ _ _ _ hrev
  · intro k hk
    rw [hupd]
    exact findFlow_replaceFlow_ne _ _ _ _ hk
  · rw [hupd]
    exact replaceFlow_length _ _ _
  · exact pairInv_run timeout ops [] pairInv_nil

/-- C1 counterexample: after an ARP packet seeds a protocol-0 entry, the
protocol-0 flag-free packet `filteredRevPkt` has its reverse key present in
the table, yet `update` leaves the table unchanged (the entry keeps
`direction = 0` and none of its counters move) because of the filter at the
top of `FlowTable::update`. -/
theorem update_reverse_hit_cex :
    findFlow (runFlowOps 30 [FlowOp.upd arpSeedPkt]) (pktRevKey filteredRevPkt)
        = some (newFlowState arpSeedPkt) ∧
      FlowTable.update (runFlowOps 30 [FlowOp.upd arpSeedPkt]) filteredRevPkt
        = runFlowOps 30 [FlowOp.upd arpSeedPkt] ∧
      (newFlowState arpSeedPkt).direction ≠ 2 := by decide

/-- Witness for C1 (amended): the HTTPS reply packet hits the entry seeded by
`tcpPkt` through its reverse key. -/
theorem update_reverse_hit_witness :
    findFlow (FlowTable.update (runFlowOps 30 [FlowOp.upd tcpPkt]) tcpPktRev)
        (pktRevKey tcpPktRev)
        = some (bumpFlowRev (newFlowState tcpPkt) tcpPktRev) ∧
      (bumpFlowRev (newFlowState tcpPkt) tcpPktRev).direction = 2 ∧
      (∀ k, k ≠ pktRevKey tcpPktRev →
        findFlow (FlowTable.update (runFlowOps 30 [FlowOp.upd tcpPkt]) tcpPktRev) k
          = findFlow (runFlowOps 30 [FlowOp.upd tcpPkt]) k) ∧
      (FlowTable.update (runFlowOps 30 [FlowOp.upd tcpPkt]) tcpPktRev).length
        = (runFlowOps 30 [FlowOp.upd tcpPkt]).length ∧
      PairInv (runFlowOps 30 [FlowOp.upd tcpPkt]) :=
  update_reverse_hit 30 [FlowOp.upd tcpPkt] tcpPktRev (newFlowState tcpPkt)
    (by decide) (by decide)

/-!  ## Claim C10: packets that are their own reverse -/

/-- C10 (amended): for a packet whose forward key equals its own reverse key
and which passes the filter, the first update inserts a single entry (with
`direction = 0`, since the ports are equal), and every later filter-passing
update with that key takes the reverse-key branch and sets `direction = 2`. -/
theorem update_self_reverse (p : PacketHeader)
    (hself : pktRevKey p = pktKey p) (hfp : PassesFilter p) :
    (∀ t : FlowTable, findFlow t (pktKey p) = none →
      FlowTable.update t p = t ++ [(pktKey p, newFlowState p)] ∧
        (newFlowState p).direction = 0) ∧
    (∀ (q : PacketHeader) (t : FlowTable) (f : FlowState), PassesFilter q →
      pktKey q = pktKey p → findFlow t (pktKey p) = some f →
      findFlow (FlowTable.update t q) (pktKey p) = some (bumpFlowRev f q) ∧
        (bumpFlowRev f q).direction = 2) := by
  have hports : p.dst_ip = p.src_ip ∧ p.dst_port = p.src_port := by
    simp only [pktRevKey, pktKey, FlowKey.mk.injEq] at hself
    exact ⟨hself.1, hself.2.2.1⟩
  constructor
  · intro t hnone
    constructor
    · simp only [FlowTable.update, hself, hnone]
      rw [if_neg hfp]
    · simp [newFlowState, hports.2]
  · intro q t f hfq hkey hsome
    have hrevq : pktRevKey q = pktKey p := by
      rw [← reverse_pktKey, hkey, reverse_pktKey]
      exact hself
    have hupd : FlowTable.update t q = replaceFlow t (pktRevKey q) (bumpFlowRev f q) := by
      simp only [FlowTable.update, hrevq, hsome]
      rw [if_neg hfq]
    refine ⟨?_, rfl⟩
    rw [hupd, hrevq]
    exact findFlow_replaceFlow_self _ _ _ _ hsome

/-- C10 counterexample: `selfFilteredPkt` is its own reverse, but its first
update inserts nothing at all — the filter discards it (protocol 0, no
flags). -/
theorem update_self_reverse_cex :
    pktRevKey selfFilteredPkt = pktKey selfFilteredPkt ∧
      FlowTable.update [] selfFilteredPkt = [] := by decide

/-- Witness for C10 (amended) with a self-reverse TCP packet. -/
theorem update_self_reverse_witness :
    (FlowTable.update [] selfTcpPkt
        = [] ++ [(pktKey selfTcpPkt, newFlowState selfTcpPkt)] ∧
      (newFlowState selfTcpPkt).direction = 0) ∧
    (findFlow
        (FlowTable.update [(pktKey selfTcpPkt, newFlowState selfTcpPkt)] selfTcpPkt)
        (pktKey selfTcpPkt)
        = some (bumpFlowRev (newFlowState selfTcpPkt) selfTcpPkt) ∧
      (bumpFlowRev (newFlowState selfTcpPkt) selfTcpPkt).direction = 2) := by
  have h := update_self_reverse selfTcpPkt (by decide) (by decide)
  exact ⟨h.1 [] rfl,
    h.2 selfTcpPkt [(pktKey selfTcpPkt, newFlowState selfTcpPkt)]
      (newFlowState selfTcpPkt) (by decide) rfl (by decide)⟩

/-!  ## Claim C5: `bytes_total` is the sum of the charged packets' wire
lengths -/

theorem findFlowH_replaceFlowH_self (t : FlowTableH) (k : FlowKey)
    (fp fp' : FlowState × List PacketHeader) (h : findFlowH t k = some fp) :
    findFlowH (replaceFlowH t k fp') k = some fp' := by
  induction t with
  | nil => simp [findFlowH] at h
  | cons e rest ih =>
    obtain ⟨k0, fp0⟩ := e
    by_cases hk : k0 = k
    · subst hk
      simp [findFlowH, replaceFlowH]
    · simp only [findFlowH, replaceFlowH, if_neg hk] at h ⊢
      exact ih h

theorem findFlowH_replaceFlowH_ne (t : FlowTableH) (k k' : FlowKey)
    (fp' : FlowState × List PacketHeader) (h : k' ≠ k) :
    findFlowH (replaceFlowH t k fp') k' = findFlowH t k' := by
  induction t with
  | nil => simp [replaceFlowH]
  | cons e rest ih =>
    obtain ⟨k0, fp0⟩ := e
    by_cases hk : k0 = k
    · subst hk
      have hk0 : ¬k0 = k' := fun hc => h (hc ▸ rfl)
      simp [findFlowH, replaceFlowH, hk0]
    · by_cases hk' : k0 = k'
      · simp [findFlowH, replaceFlowH, hk, hk', h]
      · simp only [findFlowH, replaceFlowH, if_neg hk, if_neg hk']
        exact ih

theorem findFlowH_some_memH (t : FlowTableH) (k : FlowKey)
    (fp : FlowState × List PacketHeader) (h : findFlowH t k = some fp) :
    (k, fp) ∈ t := by
  induction t with
  | nil => simp [findFlowH] at h
  | cons e rest ih =>
    obtain ⟨k0, fp0⟩ := e
    by_cases hk : k0 = k
    · subst hk
      simp [findFlowH] at h
      simp [h]
    · simp only [findFlowH, if_neg hk] at h
      exact List.mem_cons_of_mem _ (ih h)

theorem mem_replaceFlowH (t : FlowTableH) (k : FlowKey)
    (fp' : FlowState × List PacketHeader) (e : FlowKey × FlowState × List PacketHeader)
    (h : e ∈ replaceFlowH t k fp') :
    e ∈ t ∨ e = (k, fp') := by
  induction t with
  | nil => simp [replaceFlowH] at h
  | cons e0 rest ih =>
    obtain ⟨k0, fp0⟩ := e0
    by_cases hk : k0 = k
    · subst hk
      simp only [replaceFlowH, if_pos rfl] at h
      rcases List.mem_cons.mp h with h1 | h2
      · exact Or.inr h1
      · exact Or.inl (List.mem_cons_of_mem _ h2)
    · simp only [replaceFlowH, if_neg hk] at h
      rcases List.mem_cons.mp h with h1 | h2
      · exact Or.inl (h1 ▸ List.mem_cons_self _ _)
      · rcases ih h2 with h3 | h3
        · exact Or.inl (List.mem_cons_of_mem _ h3)
        · exact Or.inr h3

theorem findFlow_eraseH (t : FlowTableH) (key : FlowKey) :
    findFlow (eraseH t) key = Option.map Prod.fst (findFlowH t key) := by
  induction t with
  | nil => rfl
  | cons e rest ih =>
    obtain ⟨k0, fp0⟩ := e
    by_cases hk : k0 = key
    · simp [eraseH, findFlow, findFlowH, hk]
    · simp only [eraseH, List.map_cons, findFlow, findFlowH, if_neg hk]
      exact ih

theorem eraseH_replaceFlowH (t : FlowTableH) (key : FlowKey)
    (fp' : FlowState × List PacketHeader) :
    eraseH (replaceFlowH t key fp') = replaceFlow (eraseH t) key fp'.1 := by
  induction t with
  | nil => rfl
  | cons e rest ih =>
    obtain ⟨k0, fp0⟩ := e
    by_cases hk : k0 = key
    · simp [eraseH, replaceFlowH, replaceFlow, hk]
    · simp only [eraseH, List.map_cons, replaceFlowH, replaceFlow, if_neg hk] at ih ⊢
      rw [ih]

theorem eraseH_updateH (t : FlowTableH) (p : PacketHeader) :
    eraseH (t.updateH p) = (eraseH t).update p := by
  by_cases hc : p.protocol = 0 ∧ p.is_arp = false ∧ p.is_dns = false ∧ p.is_icmp = false
  · simp only [FlowTableH.updateH, FlowTable.update, if_pos hc]
  · cases hrev : findFlowH t (pktRevKey p) with
    | some fp =>
      have hrev' : findFlow (eraseH t) (pktRevKey p) = some fp.1 := by
        rw [findFlow_eraseH, hrev]
        rfl
      simp only [FlowTableH.updateH, FlowTable.update, hrev, hrev', if_neg hc]
      exact eraseH_replaceFlowH t (pktRevKey p) (bumpFlowRev fp.1 p, fp.2 ++ [p])
    | none =>
      have hrev' : findFlow (eraseH t) (pktRevKey p) = none := by
        rw [findFlow_eraseH, hrev]
        rfl
      cases hfwd : findFlowH t (pktKey p) with
      | some fp =>
        have hfwd' : findFlow (eraseH t) (pktKey p) = some fp.1 := by
          rw [findFlow_eraseH, hfwd]
          rfl
        simp only [FlowTableH.updateH, FlowTable.update, hrev, hrev', hfwd, hfwd',
          if_neg hc]
        exact eraseH_replaceFlowH t (pktKey p) (bumpFlow fp.1 p, fp.2 ++ [p])
      | none =>
        have hfwd' : findFlow (eraseH t) (pktKey p) = none := by
          rw [findFlow_eraseH, hfwd]
          rfl
        simp only [FlowTableH.updateH, FlowTable.update, hrev, hrev', hfwd, hfwd',
          if_neg hc]
        simp [eraseH]

theorem eraseH_expireH (t : FlowTableH) (timeout now : ℚ) :
    eraseH (t.expireH timeout now) = (eraseH t).expire timeout now := by
  induction t with
  | nil => rfl
  | cons e rest ih =>
    obtain ⟨k0, fp0⟩ := e
    simp only [FlowTableH.expireH, FlowTable.expire] at ih ⊢
    by_cases hq : now - fp0.1.last_seen > timeout
    · rw [List.filter_cons_of_neg (by simp [hq])]
      simp only [eraseH, List.map_cons]
      rw [List.filter_cons_of_neg (by simp [hq])]
      exact ih
    · rw [List.filter_cons_of_pos (by simp [hq])]
      simp only [eraseH, List.map_cons]
      rw [List.filter_cons_of_pos (by simp [hq])]
      exact congrArg (List.cons (k0, fp0.1)) ih

theorem eraseH_resetH (t : FlowTableH) :
    eraseH t.resetH = (eraseH t).reset_window_counters := by
  simp only [FlowTableH.resetH, FlowTable.reset_window_counters, eraseH,
    List.map_map]
  rfl

theorem eraseH_step (timeout : ℚ) (t : FlowTableH) (op : FlowOp) :
    eraseH (flowStepH timeout t op) = flowStep timeout (eraseH t) op := by
  cases op with
  | upd p => exact eraseH_updateH t p
  | expire now => exact eraseH_expireH t timeout now
  | reset => exact eraseH_resetH t

theorem eraseH_run (timeout : ℚ) (ops : List FlowOp) :
    ∀ t : FlowTableH,
      eraseH (runFlowOpsFromH timeout t ops)
        = runFlowOpsFrom timeout (eraseH t) ops := by
  induction ops with
  | nil => intro t; rfl
  | cons op ops ih =>
    intro t
    simp only [runFlowOpsFromH, runFlowOpsFrom]
    rw [← eraseH_step]
    exact ih (flowStepH timeout t op)

theorem historyH_step (timeout : ℚ) (t : FlowTableH) (op : FlowOp)
    (processed : List PacketHeader)
    (h : ∀ (k : FlowKey) (f : FlowState) (ps : List PacketHeader),
      (k, (f, ps)) ∈ t →
      f.bytes_total = (ps.map PacketHeader.wire_len).sum ∧
      f.packets_total = ps.length ∧
      ps.Sublist processed ∧
      ∀ p ∈ ps, PassesFilter p ∧ (pktKey p = k ∨ pktRevKey p = k)) :
    ∀ (k : FlowKey) (f : FlowState) (ps : List PacketHeader),
      (k, (f, ps)) ∈ flowStepH timeout t op →
      f.bytes_total = (ps.map PacketHeader.wire_len).sum ∧
      f.packets_total = ps.length ∧
      ps.Sublist (processed ++ updPackets [op]) ∧
      ∀ p ∈ ps, PassesFilter p ∧ (pktKey p = k ∨ pktRevKey p = k) := by
  cases op with
  | upd p =>
    have hproc : processed.Sublist (processed ++ updPackets [FlowOp.upd p]) :=
      List.sublist_append_left _ _
    intro k f ps he
    by_cases hc : p.protocol = 0 ∧ p.is_arp = false ∧ p.is_dns = false ∧ p.is_icmp = false
    · have hst : flowStepH timeout t (FlowOp.upd p) = t := by
        simp only [flowStepH, FlowTableH.updateH]
        rw [if_pos hc]
      rw [hst] at he
      obtain ⟨hb, hn, hsub, hmap⟩ := h k f ps he
      exact ⟨hb, hn, hsub.trans hproc, hmap⟩
    · cases hrev : findFlowH t (pktRevKey p) with
      | some fp =>
        obtain ⟨g, qs⟩ := fp
        have hst : flowStepH timeout t (FlowOp.upd p)
            = replaceFlowH t (pktRevKey p) (bumpFlowRev g p, qs ++ [p]) := by
          simp only [flowStepH, FlowTableH.updateH, hrev]
          rw [if_neg hc]
        rw [hst] at he
        rcases mem_replaceFlowH _ _ _ _ he with hold | hnew
        · obtain ⟨hb, hn, hsub, hmap⟩ := h k f ps hold
          exact ⟨hb, hn, hsub.trans hproc, hmap⟩
        · obtain ⟨hb, hn, hsub, hmap⟩ :=
            h (pktRevKey p) g qs (findFlowH_some_memH _ _ _ hrev)
          simp only [Prod.mk.injEq] at hnew
          obtain ⟨hk, hf, hp⟩ := hnew
          subst hk; subst hf; subst hp
          refine ⟨?_, ?_, hsub.append (List.Sublist.refl _), ?_⟩
          · simp [bumpFlowRev, bumpFlow, hb]
          · simp [bumpFlowRev, bumpFlow, hn]
          · intro x hx
            rcases List.mem_append.mp hx with hx | hx
            · exact hmap x hx
            · simp only [List.mem_singleton] at hx
              subst hx
              exact ⟨hc, Or.inr rfl⟩
      | none =>
        cases hfwd : findFlowH t (pktKey p) with
        | some fp =>
          obtain ⟨g, qs⟩ := fp
          have hst : flowStepH timeout t (FlowOp.upd p)
              = replaceFlowH t (pktKey p) (bumpFlow g p, qs ++ [p]) := by
            simp only [flowStepH, FlowTableH.updateH, hrev, hfwd]
            rw [if_neg hc]
          rw [hst] at he
          rcases mem_replaceFlowH _ _ _ _ he with hold | hnew
          · obtain ⟨hb, hn, hsub, hmap⟩ := h k f ps hold
            exact ⟨hb, hn, hsub.trans hproc, hmap⟩
          · obtain ⟨hb, hn, hsub, hmap⟩ :=
              h (pktKey p) g qs (findFlowH_some_memH _ _ _ hfwd)
            simp only [Prod.mk.injEq] at hnew
            obtain ⟨hk, hf, hp⟩ := hnew
            subst hk; subst hf; subst hp
            refine ⟨?_, ?_, hsub.append (List.Sublist.refl _), ?_⟩
            · simp [bumpFlow, hb]
            · simp [bumpFlow, hn]
            · intro x hx
              rcases List.mem_append.mp hx with hx | hx
              · exact hmap x hx
              · simp only [List.mem_singleton] at hx
                subst hx
                exact ⟨hc, Or.inl rfl⟩
        | none =>
          have hst : flowStepH timeout t (FlowOp.upd p)
              = t ++ [(pktKey p, newFlowState p, [p])] := by
            simp only [flowStepH, FlowTableH.updateH, hrev, hfwd]
            rw [if_neg hc]
          rw [hst] at he
          rcases List.mem_append.mp he with hold | hnew
          · obtain ⟨hb, hn, hsub, hmap⟩ := h k f ps hold
            exact ⟨hb, hn, hsub.trans hproc, hmap⟩
          · simp only [List.mem_singleton, Prod.mk.injEq] at hnew
            obtain ⟨hk, hf, hp⟩ := hnew
            subst hk; subst hf; subst hp
            refine ⟨by simp [newFlowState], by simp [newFlowState],
              List.sublist_append_right _ _, ?_⟩
            intro x hx
            simp only [List.mem_singleton] at hx
            subst hx
            exact ⟨hc, Or.inl rfl⟩
  | expire now =>
    intro k f ps he
    obtain ⟨hb, hn, hsub, hmap⟩ := h k f ps (List.mem_of_mem_filter he)
    exact ⟨hb, hn, by simpa [updPackets] using hsub, hmap⟩
  | reset =>
    intro k f ps he
    simp only [flowStepH, FlowTableH.resetH] at he
    rcases List.mem_map.mp he with ⟨e0, he0, heq⟩
    obtain ⟨k0, g0, qs0⟩ := e0
    simp only [Prod.mk.injEq] at heq
    obtain ⟨hk, hf, hp⟩ := heq
    subst hk; subst hf; subst hp
    obtain ⟨hb, hn, hsub, hmap⟩ := h k0 g0 qs0 he0
    exact ⟨hb, hn, by simpa [updPackets] using hsub, hmap⟩

theorem historyH_run (timeout : ℚ) (ops : List FlowOp) :
    ∀ (t : FlowTableH) (processed : List PacketHeader),
      (∀ (k : FlowKey) (f : FlowState) (ps : List PacketHeader),
        (k, (f, ps)) ∈ t →
        f.bytes_total = (ps.map PacketHeader.wire_len).sum ∧
        f.packets_total = ps.length ∧
        ps.Sublist processed ∧
        ∀ p ∈ ps, PassesFilter p ∧ (pktKey p = k ∨ pktRevKey p = k)) →
      ∀ (k : FlowKey) (f : FlowState) (ps : List PacketHeader),
        (k, (f, ps)) ∈ runFlowOpsFromH timeout t ops →
        f.bytes_total = (ps.map PacketHeader.wire_len).sum ∧
        f.packets_total = ps.length ∧
        ps.Sublist (processed ++ updPackets ops) ∧
        ∀ p ∈ ps, PassesFilter p ∧ (pktKey p = k ∨ pktRevKey p = k) := by
  induction ops with
  | nil =>
    intro t processed h k f ps he
    obtain ⟨hb, hn, hsub, hmap⟩ := h k f ps he
    exact ⟨hb, hn, by simpa [updPackets] using hsub, hmap⟩
  | cons op ops ih =>
    intro t processed h k f ps he
    have hsplit : updPackets (op :: ops) = updPackets [op] ++ updPackets ops := by
      cases op <;> simp [updPackets]
    have hstep := historyH_step timeout t op processed h
    obtain ⟨hb, hn, hsub, hmap⟩ :=
      ih (flowStepH timeout t op) (processed ++ updPackets [op]) hstep k f ps he
    refine ⟨hb, hn, ?_, hmap⟩
    rw [hsplit, ← List.append_assoc]
    exact hsub

theorem updateH_charges (T : FlowTableH) (p : PacketHeader) (k : FlowKey)
    (f : FlowState) (ps : List PacketHeader)
    (hpair : PairInv (eraseH T)) (hfp : PassesFilter p)
    (hmap : pktKey p = k ∨ pktRevKey p = k)
    (hfind : findFlowH T k = some (f, ps)) :
    ∃ f' : FlowState,
      findFlowH (T.updateH p) k = some (f', ps ++ [p]) ∧
      f'.bytes_total = f.bytes_total + p.wire_len ∧
      f'.packets_total = f.packets_total + 1 ∧
      ∀ k', k' ≠ k → findFlowH (T.updateH p) k' = findFlowH T k' := by
  by_cases hrevk : pktRevKey p = k
  · have hrev : findFlowH T (pktRevKey p) = some (f, ps) := by
      rw [hrevk]
      exact hfind
    have hupd : T.updateH p
        = replaceFlowH T (pktRevKey p) (bumpFlowRev f p, ps ++ [p]) := by
      simp only [FlowTableH.updateH, hrev]
      rw [if_neg hfp]
    refine ⟨bumpFlowRev f p, ?_, by simp [bumpFlowRev, bumpFlow],
      by simp [bumpFlowRev, bumpFlow], ?_⟩
    · rw [hupd, ← hrevk]
      exact findFlowH_replaceFlowH_self T (pktRevKey p) (f, ps) _ hrev
    · intro k' hk'
      rw [hupd]
      apply findFlowH_replaceFlowH_ne
      rw [hrevk]
      exact hk'
  · have hkey : pktKey p = k := by
      rcases hmap with hm | hm
      · exact hm
      · exact absurd hm hrevk
    cases hrevfind : findFlowH T (pktRevKey p) with
    | some gq =>
      exfalso
      have h1 : (findFlow (eraseH T) k).isSome := by
        rw [findFlow_eraseH, hfind]
        rfl
      have h2 : (findFlow (eraseH T) (pktRevKey p)).isSome := by
        rw [findFlow_eraseH, hrevfind]
        rfl
      have hrel : pktRevKey p = k.reverse := by
        rw [← hkey, ← reverse_pktKey]
      exact hrevk (hpair k (pktRevKey p) h1 h2 hrel).symm
    | none =>
      have hfwd : findFlowH T (pktKey p) = some (f, ps) := by
        rw [hkey]
        exact hfind
      have hupd : T.updateH p
          = replaceFlowH T (pktKey p) (bumpFlow f p, ps ++ [p]) := by
        simp only [FlowTableH.updateH, hrevfind, hfwd]
        rw [if_neg hfp]
      refine ⟨bumpFlow f p, ?_, by simp [bumpFlow], by simp [bumpFlow], ?_⟩
      · rw [hupd, ← hkey]
        exact findFlowH_replaceFlowH_self T (pktKey p) (f, ps) _ hfwd
      · intro k' hk'
        rw [hupd]
        apply findFlowH_replaceFlowH_ne
        rw [hkey]
        exact hk'

/-- C5 counterexample: an ARP packet (wire_len 60) seeds a protocol-0 flow;
a later protocol-0 flag-free packet (wire_len 40) maps to that flow through
its reverse key but is discarded by the filter at flow_table.hpp:19-21, so
`bytes_total` stays 60 while the packets that mapped to the flow via its
forward or reverse key since its creation sum to 100. -/
theorem bytes_total_sum_cex :
    findFlow (runFlowOps 30 [FlowOp.upd arpSeedPkt, FlowOp.upd filteredRevPkt])
        (pktKey arpSeedPkt) = some (newFlowState arpSeedPkt) ∧
      (newFlowState arpSeedPkt).bytes_total = 60 ∧
      (((updPackets [FlowOp.upd arpSeedPkt, FlowOp.upd filteredRevPkt]).filter
          (fun p => decide (pktKey p = pktKey arpSeedPkt ∨
            pktRevKey p = pktKey arpSeedPkt))).map PacketHeader.wire_len).sum
        = 100 ∧
      (60 : Nat) ≠ 100 := by decide

/-- C5 (amended): every flow entry's `bytes_total` is the sum of `wire_len`
over exactly the filter-passing packets charged to it since its creation.
Conjunct 1: erasing histories from the instrumented run gives the real run,
so each entry's history is precisely the packets that created or bumped it.
Conjunct 2: `bytes_total` is the sum of `wire_len` over the history,
`packets_total` its length, and every charged packet passes the filter and
maps to the entry via its forward or reverse key.  Conjunct 3
(completeness): updating with any filter-passing packet that maps to a live
entry's key charges that packet to exactly that entry — its history gains
the packet and its `bytes_total` gains `wire_len`, while every other key is
untouched. -/
theorem bytes_total_exact (timeout : ℚ) (ops : List FlowOp) :
    eraseH (runFlowOpsH timeout ops) = runFlowOps timeout ops ∧
    (∀ (k : FlowKey) (f : FlowState) (ps : List PacketHeader),
      (k, (f, ps)) ∈ runFlowOpsH timeout ops →
      f.bytes_total = (ps.map PacketHeader.wire_len).sum ∧
      f.packets_total = ps.length ∧
      ps.Sublist (updPackets ops) ∧
      ∀ p ∈ ps, PassesFilter p ∧ (pktKey p = k ∨ pktRevKey p = k)) ∧
    (∀ (p : PacketHeader) (k : FlowKey) (f : FlowState) (ps : List PacketHeader),
      PassesFilter p → (pktKey p = k ∨ pktRevKey p = k) →
      findFlowH (runFlowOpsH timeout ops) k = some (f, ps) →
      ∃ f' : FlowState,
        findFlowH ((runFlowOpsH timeout ops).updateH p) k = some (f', ps ++ [p]) ∧
        f'.bytes_total = f.bytes_total + p.wire_len ∧
        f'.packets_total = f.packets_total + 1 ∧
        ∀ k', k' ≠ k →
          findFlowH ((runFlowOpsH timeout ops).updateH p) k'
            = findFlowH (runFlowOpsH timeout ops) k') := by
  have hproj : eraseH (runFlowOpsH timeout ops) = runFlowOps timeout ops :=
    eraseH_run timeout ops []
  refine ⟨hproj, ?_, ?_⟩
  · intro k f ps he
    have h := historyH_run timeout ops [] []
      (by intro k f ps he; simp at he) k f ps he
    obtain ⟨hb, hn, hsub, hmap⟩ := h
    exact ⟨hb, hn, by simpa using hsub, hmap⟩
  · intro p k f ps hfp hmap hfind
    have hpair : PairInv (eraseH (runFlowOpsH timeout ops)) := by
      rw [hproj]
      exact pairInv_run timeout ops [] pairInv_nil
    exact updateH_charges (runFlowOpsH timeout ops) p k f ps hpair hfp hmap hfind

/-- Witness for C5 (amended): the bidirectional flow built by a forward and
a reverse TCP packet, with its exact history `[tcpPkt, tcpPktRev]`, and a
third mapped packet charged to it by the completeness conjunct. -/
theorem bytes_total_exact_witness :
    ((bumpFlowRev (newFlowState tcpPkt) tcpPktRev).bytes_total
        = (([tcpPkt, tcpPktRev] : List PacketHeader).map PacketHeader.wire_len).sum ∧
      (bumpFlowRev (newFlowState tcpPkt) tcpPktRev).packets_total
        = ([tcpPkt, tcpPktRev] : List PacketHeader).length ∧
      ([tcpPkt, tcpPktRev] : List PacketHeader).Sublist
        (updPackets [FlowOp.upd tcpPkt, FlowOp.upd tcpPktRev]) ∧
      (∀ p ∈ ([tcpPkt, tcpPktRev] : List PacketHeader),
        PassesFilter p ∧ (pktKey p = pktKey tcpPkt ∨ pktRevKey p = pktKey tcpPkt))) ∧
    (∃ f' : FlowState,
      findFlowH
          ((runFlowOpsH 30 [FlowOp.upd tcpPkt, FlowOp.upd tcpPktRev]).updateH tcpPkt)
          (pktKey tcpPkt)
        = some (f', [tcpPkt, tcpPktRev] ++ [tcpPkt]) ∧
      f'.bytes_total
        = (bumpFlowRev (newFlowState tcpPkt) tcpPktRev).bytes_total + tcpPkt.wire_len ∧
      f'.packets_total
        = (bumpFlowRev (newFlowState tcpPkt) tcpPktRev).packets_total + 1 ∧
      ∀ k', k' ≠ pktKey tcpPkt →
        findFlowH
            ((runFlowOpsH 30 [FlowOp.upd tcpPkt, FlowOp.upd tcpPktRev]).updateH tcpPkt)
            k'
          = findFlowH (runFlowOpsH 30 [FlowOp.upd tcpPkt, FlowOp.upd tcpPktRev]) k') := by
  have h := bytes_total_exact 30 [FlowOp.upd tcpPkt, FlowOp.upd tcpPktRev]
  exact ⟨h.2.1 (pktKey tcpPkt) (bumpFlowRev (newFlowState tcpPkt) tcpPktRev)
      [tcpPkt, tcpPktRev] (by decide),
    h.2.2 tcpPkt (pktKey tcpPkt) (bumpFlowRev (newFlowState tcpPkt) tcpPktRev)
      [tcpPkt, tcpPktRev] (by decide) (by decide) (by decide)⟩


/-!  ## Claim C8: emitted frames are clamped and finite -/

theorem sanitizeD_isFinite (x : EDouble) : (sanitizeD x).IsFinite := by
  cases x <;> trivial

/-- C8: every frame built by `build_frame` has `net.packet_loss` and
`net.error_rate` finite and inside `[0, 1]`, and its sanitized `double`
fields (`latency_ms`, `packet_loss`, `error_rate`, `timestamp`) are neither
NaN nor infinite, for every aggregator state, window length and raw
timestamp.  (The remaining numeric fields are integers, or rationals that
the program only ever assigns finite values, by construction.) -/
theorem build_frame_sane (st : AggState) (w : ℚ) (ts : EDouble) :
    (∃ q : ℚ, (build_frame st w ts).1.net.packet_loss = EDouble.fin q ∧
      0 ≤ q ∧ q ≤ 1) ∧
    (∃ q : ℚ, (build_frame st w ts).1.net.error_rate = EDouble.fin q ∧
      0 ≤ q ∧ q ≤ 1) ∧
    (build_frame st w ts).1.net.latency_ms.IsFinite ∧
    (build_frame st w ts).1.timestamp.IsFinite ∧
    (build_frame st w ts).1.net.packet_loss.IsFinite ∧
    (build_frame st w ts).1.net.error_rate.IsFinite := by
  have hpl : (build_frame st w ts).1.net.packet_loss
      = sanitizeD (if 0 < st.window_total_pkts then
          EDouble.fin (min ((st.window_rst : ℚ) / st.window_total_pkts) 1)
        else EDouble.fin 0) := rfl
  have her : (build_frame st w ts).1.net.error_rate
      = sanitizeD (if 0 < st.window_total_pkts then
          EDouble.fin
            (min (((st.window_rst + st.window_icmp_unreach : Nat) : ℚ)
              / st.window_total_pkts) 1)
        else EDouble.fin 0) := rfl
  have hts : (build_frame st w ts).1.timestamp = sanitizeD ts := rfl
  refine ⟨?_, ?_, ?_, ?_, ?_, ?_⟩
  · rw [hpl]
    by_cases hp : 0 < st.window_total_pkts
    · rw [if_pos hp]
      refine ⟨_, rfl, ?_, min_le_right _ _⟩
      exact le_min (div_nonneg (Nat.cast_nonneg _) (Nat.cast_nonneg _)) zero_le_one
    · rw [if_neg hp]
      exact ⟨0, rfl, le_refl 0, zero_le_one⟩
  · rw [her]
    by_cases hp : 0 < st.window_total_pkts
    · rw [if_pos hp]
      refine ⟨_, rfl, ?_, min_le_right _ _⟩
      exact le_min (div_nonneg (Nat.cast_nonneg _) (Nat.cast_nonneg _)) zero_le_one
    · rw [if_neg hp]
      exact ⟨0, rfl, le_refl 0, zero_le_one⟩
  · exact sanitizeD_isFinite _
  · rw [hts]
    exact sanitizeD_isFinite _
  · rw [hpl]
    exact sanitizeD_isFinite _
  · rw [her]
    exact sanitizeD_isFinite _

/-!  ## Ring-buffer lemmas -/

theorem ringCapacity_eq : ringCapacity = 8192 := rfl

theorem contents_length {T : Type} (r : RingBuffer T) :
    r.contents.length = r.used := by
  simp [RingBuffer.contents]
theorem wf_empty {T : Type} [Inhabited T] : (RingBuffer.empty : RingBuffer T).WF :=
  ⟨(by decide : (0 : Nat) < ringCapacity), (by decide : (0 : Nat) < ringCapacity)⟩

theorem contents_empty {T : Type} [Inhabited T] :
    (RingBuffer.empty : RingBuffer T).contents = [] := by
  have h : (RingBuffer.empty : RingBuffer T).used = 0 := by
    show (0 + ringCapacity - 0) % ringCapacity = 0
    decide
  unfold RingBuffer.contents
  rw [h]
  simp

theorem push_not_full {T : Type} (r : RingBuffer T) (x : T) (h : r.WF)
    (hnf : r.used ≠ ringCapacity - 1) :
    (r.push x).WF ∧ (r.push x).drops = r.drops ∧
      (r.push x).used = r.used + 1 ∧
      (r.push x).contents = r.contents ++ [x] := by
  obtain ⟨h1, h2⟩ := h
  have hc : (r.head + 1) % ringCapacity ≠ r.tail := by
    simp only [RingBuffer.used, ringCapacity_eq] at *
    omega
  have e1 : r.push x =
      { buffer := fun i => if i = r.head then x else r.buffer i,
        head := (r.head + 1) % ringCapacity, tail := r.tail, drops := r.drops } := by
    unfold RingBuffer.push
    rw [if_neg hc]
  have hu : (r.push x).used = r.used + 1 := by
    simp only [e1, RingBuffer.used, ringCapacity_eq] at *
    omega
  refine ⟨?_, ?_, hu, ?_⟩
  · rw [e1]
    exact ⟨Nat.mod_lt _ (by decide), h2⟩
  · simp [e1]
  · unfold RingBuffer.contents
    rw [hu]
    simp only [e1]
    rw [List.range_succ, List.map_append]
    congr 1
    · apply List.map_congr_left
      intro i hi
      have hi' : i < r.used := List.mem_range.mp hi
      have hne : ¬(r.tail + i) % ringCapacity = r.head := by
        simp only [RingBuffer.used, ringCapacity_eq] at *
        omega
      simp only [if_neg hne]
    · have hidx : (r.tail + r.used) % ringCapacity = r.head := by
        simp only [RingBuffer.used, ringCapacity_eq] at *
        omega
      simp [hidx]

theorem pop_of_empty {T : Type} (r : RingBuffer T) (h : r.tail = r.head) :
    r.pop = (none, r) := by
  simp [RingBuffer.pop, h]

theorem used_zero_iff {T : Type} (r : RingBuffer T) (h : r.WF) :
    r.used = 0 ↔ r.tail = r.head := by
  obtain ⟨h1, h2⟩ := h
  simp only [RingBuffer.used, ringCapacity_eq] at *
  omega

theorem pop_nonempty {T : Type} (r : RingBuffer T) (h : r.WF)
    (hne : r.tail ≠ r.head) :
    (r.pop).1 = some (r.buffer r.tail) ∧
      r.contents = r.buffer r.tail :: (r.pop).2.contents ∧
      (r.pop).2.drops = r.drops ∧
      (r.pop).2.used = r.used - 1 ∧
      (r.pop).2.WF := by
  obtain ⟨h1, h2⟩ := h
  have e1 : r.pop = (some (r.buffer r.tail),
      { r with tail := (r.tail + 1) % ringCapacity }) := by
    unfold RingBuffer.pop
    rw [if_neg hne]
  have hu : (r.pop).2.used = r.used - 1 := by
    simp only [e1, RingBuffer.used, ringCapacity_eq] at *
    omega
  have hu1 : 1 ≤ r.used := by
    simp only [RingBuffer.used, ringCapacity_eq] at *
    omega
  refine ⟨by rw [e1], ?_, by simp [e1], hu, ?_⟩
  · obtain ⟨m, hm⟩ : ∃ m, r.used = m + 1 := ⟨r.used - 1, by omega⟩
    have hu' : (r.pop).2.used = m := by omega
    unfold RingBuffer.contents
    rw [hu', hm, List.range_succ_eq_map, List.map_cons, List.map_map]
    congr 1
    · have hz : (r.tail + 0) % ringCapacity = r.tail := by
        simp only [ringCapacity_eq] at *
        omega
      rw [hz]
    · apply List.map_congr_left
      intro i hi
      have hi' : i < m := List.mem_range.mp hi
      simp only [Function.comp_apply, e1, Nat.succ_eq_add_one]
      have hidx : (r.tail + (i + 1)) % ringCapacity
          = ((r.tail + 1) % ringCapacity + i) % ringCapacity := by
        simp only [ringCapacity_eq] at *
        omega
      rw [hidx]
  · rw [e1]
    exact ⟨h1, Nat.mod_lt _ (by decide)⟩

theorem push_full {T : Type} (r : RingBuffer T) (x : T) (h : r.WF)
    (hf : r.used = ringCapacity - 1) :
    (r.push x).WF ∧ (r.push x).drops = r.drops + 1 ∧
      (r.push x).used = ringCapacity - 1 ∧
      (r.push x).contents = r.contents.drop 1 ++ [x] := by
  obtain ⟨h1, h2⟩ := h
  have hne : r.tail ≠ r.head := by
    simp only [RingBuffer.used, ringCapacity_eq] at *
    omega
  obtain ⟨hp1, hp2, hp3, hp4, hp5⟩ := pop_nonempty r ⟨h1, h2⟩ hne
  have hc : (r.head + 1) % ringCapacity = r.tail := by
    simp only [RingBuffer.used, ringCapacity_eq] at *
    omega
  have e1 : r.push x =
      { buffer := fun i => if i = r.head then x else r.buffer i,
        head := (r.head + 1) % ringCapacity, tail := (r.tail + 1) % ringCapacity,
        drops := r.drops + 1 } := by
    unfold RingBuffer.push
    rw [if_pos hc]
  have e2 : (r.pop).2 = { r with tail := (r.tail + 1) % ringCapacity } := by
    unfold RingBuffer.pop
    rw [if_neg hne]
  have hnf : (r.pop).2.used ≠ ringCapacity - 1 := by
    rw [hp4, hf]
    decide
  obtain ⟨hq1, hq2, hq3, hq4⟩ := push_not_full (r.pop).2 x hp5 hnf
  have hsame : (r.push x).contents = ((r.pop).2.push x).contents := by
    have e3 : (r.pop).2.push x =
        { buffer := fun i => if i = r.head then x else r.buffer i,
          head := (r.head + 1) % ringCapacity, tail := (r.tail + 1) % ringCapacity,
          drops := r.drops } := by
      rw [e2]
      unfold RingBuffer.push
      have hd : ¬(r.head + 1) % ringCapacity = (r.tail + 1) % ringCapacity := by
        simp only [ringCapacity_eq] at *
        omega
      rw [if_neg hd]
    rw [e1, e3]
    rfl
  refine ⟨?_, ?_, ?_, ?_⟩
  · rw [e1]
    exact ⟨Nat.mod_lt _ (by decide), Nat.mod_lt _ (by decide)⟩
  · simp [e1]
  · have hun : (r.push x).used
        = ((r.head + 1) % ringCapacity + ringCapacity
            - (r.tail + 1) % ringCapacity) % ringCapacity := by
      simp only [RingBuffer.used, e1]
    rw [hun]
    simp only [RingBuffer.used, ringCapacity_eq] at hf h1 h2 ⊢
    omega
  · rw [hsame, hq4, hp2]
    simp

theorem pushSeq_spec {T : Type} (xs : List T) :
    ∀ r : RingBuffer T, r.WF →
      (pushSeq r xs).WF ∧
        (pushSeq r xs).drops
          = r.drops + (r.used + xs.length - (ringCapacity - 1)) ∧
        (pushSeq r xs).contents
          = (r.contents ++ xs).drop (r.used + xs.length - (ringCapacity - 1)) := by
  induction xs with
  | nil =>
    intro r hwf
    have hub : r.used < ringCapacity := Nat.mod_lt _ (by decide)
    refine ⟨hwf, ?_, ?_⟩
    · simp only [pushSeq, List.length_nil, ringCapacity_eq] at *
      omega
    · have hz : r.used + ([] : List T).length - (ringCapacity - 1) = 0 := by
        simp only [List.length_nil, ringCapacity_eq] at *
        omega
      rw [hz]
      simp [pushSeq]
  | cons x xs ih =>
    intro r hwf
    have hub : r.used < ringCapacity := Nat.mod_lt _ (by decide)
    simp only [pushSeq]
    by_cases hfull : r.used = ringCapacity - 1
    · obtain ⟨hq1, hq2, hq3, hq4⟩ := push_full r x hwf hfull
      obtain ⟨hw, hd, hcont⟩ := ih (r.push x) hq1
      have hlen : r.contents.length = ringCapacity - 1 := by
        rw [contents_length, hfull]
      refine ⟨hw, ?_, ?_⟩
      · rw [hd, hq2, hq3, hfull]
        simp only [List.length_cons, ringCapacity_eq]
        omega
      · rw [hcont, hq4, hq3, hfull]
        have e4 : ringCapacity - 1 + xs.length - (ringCapacity - 1) = xs.length := by
          omega
        have e5 : ringCapacity - 1 + (x :: xs).length - (ringCapacity - 1)
            = 1 + xs.length := by
          simp only [List.length_cons]
          omega
        rw [e4, e5]
        rw [show r.contents ++ (x :: xs) = (r.contents ++ [x]) ++ xs by simp]
        rw [← List.drop_drop]
        refine congrArg (List.drop xs.length) ?_
        rw [List.drop_append_of_le_length
          (show (1 : Nat) ≤ (r.contents ++ [x]).length by simp)]
        rw [List.drop_append_of_le_length
          (show (1 : Nat) ≤ r.contents.length by rw [hlen]; decide)]
    · obtain ⟨hq1, hq2, hq3, hq4⟩ := push_not_full r x hwf hfull
      obtain ⟨hw, hd, hcont⟩ := ih (r.push x) hq1
      refine ⟨hw, ?_, ?_⟩
      · rw [hd, hq2, hq3]
        simp only [List.length_cons, ringCapacity_eq] at *
        omega
      · rw [hcont, hq4, hq3]
        have e4 : r.used + 1 + xs.length = r.used + (x :: xs).length := by
          simp only [List.length_cons]
          omega
        rw [e4, List.append_assoc]
        simp

theorem drainList_eq_take {T : Type} (fuel : Nat) :
    ∀ r : RingBuffer T, r.WF → drainList r fuel = r.contents.take fuel := by
  induction fuel with
  | zero => intro r _; simp [drainList]
  | succ n ih =>
    intro r hwf
    by_cases he : r.tail = r.head
    · have hu : r.used = 0 := (used_zero_iff r hwf).mpr he
      have hc : r.contents = [] := by
        rw [← List.length_eq_zero, contents_length, hu]
      rw [hc]
      simp only [drainList, pop_of_empty r he, List.take_nil]
    · obtain ⟨hp1, hp2, hp3, hp4, hp5⟩ := pop_nonempty r hwf he
      have e0 : r.pop = (some (r.buffer r.tail), (r.pop).2) := by
        rw [← hp1]
      have e1 : drainList r (n + 1) = r.buffer r.tail :: drainList (r.pop).2 n := by
        simp only [drainList]
        rw [e0]
      rw [e1, ih (r.pop).2 hp5, hp2]
      simp

/-!  ## Claim C2: burst pushes with no pops -/

/-- C2 counterexample: pushing 10000 items into the empty 8192-slot ring
yields `drops = 1809`, not `10000 − 8192 = 1808` — `head == tail` means
empty, so the ring stores at most 8191 items. -/
theorem ring_burst_cex :
    (pushSeq (RingBuffer.empty : RingBuffer Nat) (List.range 10000)).drops
      ≠ 10000 - 8192 := by
  obtain ⟨_, hd, _⟩ := pushSeq_spec (List.range 10000) RingBuffer.empty wf_empty
  rw [hd]
  simp only [List.length_range]
  decide

/-- C2 (amended): after `k ≥ 8191` burst pushes with no pops,
`drops = k − (capacity − 1) = k − 8191` and the buffer holds exactly the most
recent 8191 items, which pop out in push order; for 10000 pushes that is
`drops = 1809` and pops 1809..9999. -/
theorem ring_burst_amended :
    (pushSeq (RingBuffer.empty : RingBuffer Nat) (List.range 10000)).drops
        = 1809 ∧
      (pushSeq (RingBuffer.empty : RingBuffer Nat) (List.range 10000)).contents
        = (List.range 10000).drop 1809 ∧
      drainList (pushSeq (RingBuffer.empty : RingBuffer Nat) (List.range 10000)) 8191
        = (List.range 10000).drop 1809 := by
  obtain ⟨hwf, hd, hcont⟩ := pushSeq_spec (List.range 10000) RingBuffer.empty wf_empty
  have hu0 : (RingBuffer.empty : RingBuffer Nat).used = 0 := by
    show (0 + ringCapacity - 0) % ringCapacity = 0
    decide
  have hd0 : (RingBuffer.empty : RingBuffer Nat).drops = 0 := rfl
  have harg : (RingBuffer.empty : RingBuffer Nat).used + (List.range 10000).length
      - (ringCapacity - 1) = 1809 := by
    rw [hu0]
    simp [List.length_range, ringCapacity_eq]
  have hc : (pushSeq (RingBuffer.empty : RingBuffer Nat) (List.range 10000)).contents
      = (List.range 10000).drop 1809 := by
    rw [hcont, harg, contents_empty, List.nil_append]
  refine ⟨?_, hc, ?_⟩
  · rw [hd, hd0, harg]
  · rw [drainList_eq_take 8191 _ hwf, hc]
    apply List.take_of_length_le
    simp

/-!  ## Claim C4: FIFO accounting over arbitrary interleavings -/

theorem runRingAux_inv {T : Type} (ops : List (RingOp T)) :
    ∀ (r : RingBuffer T) (popped prev : List T), r.WF →
      (popped ++ r.contents).Sublist prev →
      r.drops + popped.length + r.contents.length = prev.length →
      (runRingAux r popped ops).1.WF ∧
        ((runRingAux r popped ops).2
            ++ (runRingAux r popped ops).1.contents).Sublist
          (prev ++ pushedItems ops) ∧
        (runRingAux r popped ops).1.drops + (runRingAux r popped ops).2.length
            + (runRingAux r popped ops).1.contents.length
          = (prev ++ pushedItems ops).length := by
  induction ops with
  | nil =>
    intro r popped prev hwf hsub hcnt
    simp only [runRingAux, pushedItems, List.append_nil]
    exact ⟨hwf, hsub, hcnt⟩
  | cons op ops ih =>
    intro r popped prev hwf hsub hcnt
    cases op with
    | push x =>
      simp only [runRingAux, pushedItems]
      have hchain : prev ++ x :: pushedItems ops
          = (prev ++ [x]) ++ pushedItems ops := by
        simp
      rw [hchain]
      by_cases hfull : r.used = ringCapacity - 1
      · obtain ⟨hq1, hq2, hq3, hq4⟩ := push_full r x hwf hfull
        apply ih (r.push x) popped (prev ++ [x]) hq1
        · rw [hq4]
          have hsplit : popped ++ (r.contents.drop 1 ++ [x])
              = (popped ++ r.contents.drop 1) ++ [x] := by
            simp
          rw [hsplit]
          refine List.Sublist.append ?_ (List.Sublist.refl _)
          exact ((List.drop_sublist 1 r.contents).append_left popped).trans hsub
        · rw [hq2, hq4]
          have hlen : r.contents.length = ringCapacity - 1 := by
            rw [contents_length, hfull]
          simp only [List.length_append, List.length_drop, List.length_cons,
            List.length_singleton, ringCapacity_eq] at *
          omega
      · obtain ⟨hq1, hq2, hq3, hq4⟩ := push_not_full r x hwf hfull
        apply ih (r.push x) popped (prev ++ [x]) hq1
        · rw [hq4, ← List.append_assoc]
          exact List.Sublist.append hsub (List.Sublist.refl _)
        · rw [hq2, hq4]
          simp only [List.length_append, List.length_cons, List.length_singleton] at *
          omega
    | pop =>
      simp only [runRingAux, pushedItems]
      by_cases he : r.tail = r.head
      · rw [pop_of_empty r he]
        exact ih r popped prev hwf hsub hcnt
      · obtain ⟨hp1, hp2, hp3, hp4, hp5⟩ := pop_nonempty r hwf he
        have e0 : r.pop = (some (r.buffer r.tail), (r.pop).2) := by
          rw [← hp1]
        rw [e0]
        apply ih (r.pop).2 (popped ++ [r.buffer r.tail]) prev hp5
        · have hjoin : (popped ++ [r.buffer r.tail]) ++ (r.pop).2.contents
              = popped ++ r.contents := by
            rw [hp2]
            simp
          rw [hjoin]
          exact hsub
        · rw [hp3]
          have hlen : r.contents.length = 1 + (r.pop).2.contents.length := by
            rw [hp2]
            simp [Nat.add_comm]
          simp only [List.length_append, List.length_singleton] at *
          omega

/-- C4: over any finite interleaving of pushes and pops (treated
sequentially), the popped items form a subsequence of the pushed items in
push order, and `drops + pops + remaining = pushes`. -/
theorem ring_fifo_accounting {T : Type} [Inhabited T] (ops : List (RingOp T)) :
    (runRing ops).2.Sublist (pushedItems ops) ∧
      (runRing ops).1.drops + (runRing ops).2.length
          + (runRing ops).1.contents.length
        = (pushedItems ops).length := by
  obtain ⟨hwf, hsub, hcnt⟩ := runRingAux_inv ops RingBuffer.empty ([] : List T) []
    wf_empty (by rw [contents_empty]; simp) (by rw [contents_empty]; rfl)
  rw [List.nil_append] at hsub hcnt
  constructor
  · exact (List.sublist_append_left _ _).trans hsub
  · exact hcnt


/-!  ## Claim C3: UDP DNS detection in the decoder -/

/-- C3 (amended): for frames the decoder parses down to a UDP header with 8
bytes of room at the L4 offset, the IPv4 path sets `is_dns` iff either port
is 53 or 5353, but the IPv6 path sets it iff either port is 53 — port 5353
is not recognized as DNS on the IPv6 path. -/
theorem parse_udp_dns_amended :
    (∀ (data : List Nat) (lt wl : Nat) (now : ℚ) (off : Nat),
      parseLink data data.length lt = some (0x0800, off) →
      byteAt data off >>> 4 = 4 →
      20 ≤ byteAt data off % 16 * 4 →
      off + byteAt data off % 16 * 4 ≤ data.length →
      byteAt data (off + 9) = 17 →
      off + byteAt data off % 16 * 4 + 8 ≤ data.length →
      ((parsePacket data wl lt now).is_dns = true ↔
        (read16 data (off + byteAt data off % 16 * 4) = 53 ∨
         read16 data (off + byteAt data off % 16 * 4 + 2) = 53 ∨
         read16 data (off + byteAt data off % 16 * 4) = 5353 ∨
         read16 data (off + byteAt data off % 16 * 4 + 2) = 5353))) ∧
    (∀ (data : List Nat) (lt wl : Nat) (now : ℚ) (off nh l4 : Nat),
      parseLink data data.length lt = some (0x86DD, off) →
      off + 40 ≤ data.length →
      walkExt data data.length 8 (byteAt data (off + 6)) (off + 40) = (nh, l4) →
      nh = 17 →
      l4 + 8 ≤ data.length →
      ((parsePacket data wl lt now).is_dns = true ↔
        (read16 data l4 = 53 ∨ read16 data (l4 + 2) = 53))) := by
  constructor
  · intro data lt wl now off hlink h4 hihl20 hihlcap hproto hroom
    have hpp : parsePacket data wl lt now
        = parseIPv4 data data.length off
            { PacketHeader.zero with
              timestamp := now, captured_len := data.length, wire_len := wl } := by
      simp only [parsePacket]
      rw [hlink]
      norm_num
    rw [hpp]
    have c1 : ¬(data.length < off + 20) := by omega
    have c3 : ¬(byteAt data off % 16 * 4 < 20
        ∨ data.length < off + byteAt data off % 16 * 4) := by omega
    simp only [parseIPv4]
    simp [c1, h4, c3, hproto, hroom, PacketHeader.zero]
  · intro data lt wl now off nh l4 hlink hcap40 hwalk hnh hroom
    have hpp : parsePacket data wl lt now
        = parseIPv6 data data.length off
            { PacketHeader.zero with
              timestamp := now, captured_len := data.length, wire_len := wl } := by
      simp only [parsePacket]
      rw [hlink]
      norm_num
    rw [hpp]
    have c1 : ¬(data.length < off + 40) := by omega
    subst hnh
    simp only [parseIPv6]
    by_cases hdns : read16 data l4 = 53 ∨ read16 data (l4 + 2) = 53
    · simp [c1, hwalk, hroom, hdns, PacketHeader.zero]
    · simp [c1, hwalk, hroom, hdns, PacketHeader.zero]

/-- C3 counterexample: an Ethernet IPv6/UDP frame with source port 5353
(mDNS) parses down to a UDP header with 8 bytes of room at the L4 offset,
yet `is_dns` stays `false` — on the IPv6 path the decoder only recognizes
port 53. -/
theorem parse_udp_dns_cex :
    (parsePacket mdnsV6Frame 62 1 0).protocol = 17 ∧
      (parsePacket mdnsV6Frame 62 1 0).ip_version = 6 ∧
      (parsePacket mdnsV6Frame 62 1 0).src_port = 5353 ∧
      (parsePacket mdnsV6Frame 62 1 0).is_dns = false := by decide

/-- Witness for C3 (amended): a port-53 IPv4/UDP frame and a port-53
IPv6/UDP frame, one through each conjunct. -/
theorem parse_udp_dns_witness :
    ((parsePacket dnsV4Frame 42 1 0).is_dns = true ↔
      (read16 dnsV4Frame (14 + byteAt dnsV4Frame 14 % 16 * 4) = 53 ∨
       read16 dnsV4Frame (14 + byteAt dnsV4Frame 14 % 16 * 4 + 2) = 53 ∨
       read16 dnsV4Frame (14 + byteAt dnsV4Frame 14 % 16 * 4) = 5353 ∨
       read16 dnsV4Frame (14 + byteAt dnsV4Frame 14 % 16 * 4 + 2) = 5353)) ∧
    ((parsePacket dnsV6Frame 62 1 0).is_dns = true ↔
      (read16 dnsV6Frame 54 = 53 ∨ read16 dnsV6Frame 56 = 53)) := by
  constructor
  · exact parse_udp_dns_amended.1 dnsV4Frame 1 42 0 14 (by decide) (by decide)
      (by decide) (by decide) (by decide) (by decide)
  · exact parse_udp_dns_amended.2 dnsV6Frame 1 62 0 14 17 54 (by decide)
      (by decide) (by decide) rfl (by decide)

end Abyss
